import Mathlib

/-!
Verification development for the type-inference core of the roc repository.

The development shallowly embeds, in Lean 4, the three subsystems the
specification describes:

* the destructive union-find based unifier (`compiler/unify/src/unify.rs`),
* the tail-call-to-loop rewrite (`compiler/mono/src/tail_recursion.rs`),
* the alias-analysis lowering helpers
  (`crates/compiler/alias_analysis/src/lib.rs`).

Pure Rust functions become Lean functions; the mutable `Subs` store is
threaded explicitly; the mutually recursive unifier is made total with a
fuel parameter (`none` models divergence, panics, or fuel exhaustion).
The `Subs` type itself lives in the external `roc_types` crate, so it is
modelled from the specification (section 4.1); everything in `unify.rs`
is translated from the source.
-/

namespace RocUnify

/-- Variables are dense integer handles into the type store. -/
abbrev Var := Nat

/-- Lowercase identifiers (type variable names); modelled as numbers. -/
abbrev Name := Nat

/-- Interned symbols (module-qualified identifiers); modelled as numbers. -/
abbrev Symbol := Nat

/-- Record field names; modelled as numbers. -/
abbrev FieldName := Nat

/-- Record fields as in `roc_types::types::RecordField`. -/
inductive RecordField (A : Type) where
  | required (val : A)
  | optional (val : A)
  | demanded (val : A)
deriving DecidableEq, BEq

/-- Extract the payload of a record field (`RecordField::into_inner`). -/
def RecordField.intoInner : RecordField A → A
  | .required v => v
  | .optional v => v
  | .demanded v => v

/-- Map over the payload of a record field (`RecordField::map`). -/
def RecordField.map (f : A → B) : RecordField A → RecordField B
  | .required v => .required (f v)
  | .optional v => .optional (f v)
  | .demanded v => .demanded (f v)

/-- Tag names: ordinary tags or closure tags (`TagName::Closure`). -/
inductive TagName where
  | named (n : Nat)
  | closureTag (s : Symbol)
deriving DecidableEq, BEq

/-- Ordering key used to sort and separate tag rows. -/
def TagName.key : TagName → Nat × Nat
  | .named n => (0, n)
  | .closureTag s => (1, s)

/-- Comparison on tag names via their numeric keys. -/
def TagName.cmp (a b : TagName) : Ordering :=
  (compare a.key.1 b.key.1).then (compare a.key.2 b.key.2)

/-- Alias kinds: `Structural` or `Opaque` (the latter renamed for Lean). -/
inductive AliasKind where
  | structural
  | opaqueKind
deriving DecidableEq, BEq

/-- Record rows: a sorted association list of field name to field. -/
abbrev RecordFields := List (FieldName × RecordField Var)

/-- Tag rows: an association list of tag name to payload variables. -/
abbrev UnionTags := List (TagName × List Var)

/-- Flat (structural) types, as in `roc_types::subs::FlatType`. -/
inductive FlatType where
  | apply (symbol : Symbol) (args : List Var)
  | func (args : List Var) (closure : Var) (ret : Var)
  | record (fields : RecordFields) (ext : Var)
  | tagUnion (tags : UnionTags) (ext : Var)
  | functionOrTagUnion (tagName : TagName) (symbol : Symbol) (ext : Var)
  | recursiveTagUnion (rec : Var) (tags : UnionTags) (ext : Var)
  | emptyRecord
  | emptyTagUnion
deriving DecidableEq, BEq

/-- Contents of a type variable, as in `roc_types::subs::Content`. -/
inductive Content where
  | flexVar (optName : Option Name)
  | flexAbleVar (optName : Option Name) (ability : Symbol)
  | rigidVar (name : Name)
  | rigidAbleVar (name : Name) (ability : Symbol)
  | recursionVar (optName : Option Name) (structVar : Var)
  | structure (flat : FlatType)
  | alias (symbol : Symbol) (args : List Var) (realVar : Var) (kind : AliasKind)
  | rangedNumber (realVar : Var) (rangeVars : List Var)
  | error
deriving DecidableEq, BEq

/-- Per-equivalence-class payload: content, rank, and scratch fields. -/
structure Descriptor where
  content : Content
  rank : Nat
  mark : Nat
  copy : Option Var
deriving DecidableEq, BEq

/-- Descriptor obtained from a bare content (`Content::into()` for
`Descriptor`): neutral rank, mark and copy. -/
def descriptorOf (c : Content) : Descriptor :=
  { content := c, rank := 0, mark := 0, copy := none }

/-- Modelled from the spec (section 4.1 `Subs`): the union-find type store.
The real `Subs` lives in the external `roc_types` crate; here an
equivalence class is represented by a representative map `rep` together
with a descriptor map `desc` read at the representative.  `next` is the
next fresh variable. -/
structure Subs where
  next : Nat
  rep : Nat → Nat
  desc : Nat → Descriptor

namespace Subs

/-- Root (representative) of a variable. -/
def root (s : Subs) (v : Var) : Var := s.rep v

/-- Modelled from the spec: `equivalent(v1, v2)` - same root. -/
def equivalent (s : Subs) (v1 v2 : Var) : Bool := s.rep v1 == s.rep v2

/-- Modelled from the spec: `get(v)` reads the root descriptor. -/
def get (s : Subs) (v : Var) : Descriptor := s.desc (s.rep v)

/-- Content stored at the root of `v`. -/
def getContent (s : Subs) (v : Var) : Content := (s.get v).content

/-- Modelled from the spec: `set(v, d)` overwrites the root descriptor
without merging classes. -/
def set (s : Subs) (v : Var) (d : Descriptor) : Subs :=
  { s with desc := fun x => if x == s.rep v then d else s.desc x }

/-- Modelled from the spec: `union(v1, v2, d)` merges the classes of `v1`
and `v2`; the resulting class has descriptor `d`. -/
def union (s : Subs) (v1 v2 : Var) (d : Descriptor) : Subs :=
  let r1 := s.rep v1
  let r2 := s.rep v2
  { s with
    rep := fun x => if s.rep x == r1 then r2 else s.rep x,
    desc := fun x => if x == r2 then d else s.desc x }

/-- Modelled from the spec: `fresh(descriptor)` allocates a new class. -/
def fresh (s : Subs) (d : Descriptor) : Var × Subs :=
  (s.next,
   { next := s.next + 1,
     rep := s.rep,
     desc := fun x => if x == s.next then d else s.desc x })

/-- Modelled from the spec: `fresh_unnamed_flex_var`. -/
def freshUnnamedFlexVar (s : Subs) : Var × Subs :=
  s.fresh (descriptorOf (.flexVar none))

end Subs

/-- Construct a store from an explicit content assignment; every variable
is its own class and unlisted variables are unnamed flex vars. -/
def mkSubs (n : Nat) (f : Nat → Content) : Subs :=
  { next := n,
    rep := fun v => v,
    desc := fun v => descriptorOf (f v) }

/-- Unification modes, a bitset in the source (`Mode` in `unify.rs`). -/
structure Mode where
  eq : Bool
  present : Bool
  rigidAsFlex : Bool
deriving DecidableEq, BEq

/-- The `EQ` mode: solve two types for equality. -/
def Mode.eqMode : Mode := { eq := true, present := false, rigidAsFlex := false }

/-- The `PRESENT` mode: right-hand side is present in the left-hand side. -/
def Mode.presentMode : Mode := { eq := false, present := true, rigidAsFlex := false }

/-- Whether the mode solves for equality (`Mode::is_eq`). -/
def Mode.isEq (m : Mode) : Bool := m.eq

/-- Whether the mode is a presence constraint (`Mode::is_present`). -/
def Mode.isPresent (m : Mode) : Bool := m.present

/-- Convert any mode into an equality mode (`Mode::as_eq`). -/
def Mode.asEq (m : Mode) : Mode := { m with eq := true, present := false }

/-- Add the `RIGID_AS_FLEX` bit (`mode | Mode::RIGID_AS_FLEX`). -/
def Mode.withRigidAsFlex (m : Mode) : Mode := { m with rigidAsFlex := true }

/-- Unification mismatches (`roc_types::types::Mismatch`). -/
inductive Mismatch where
  | typeMismatch
  | typeNotInRange
  | doesNotImplementAbility (v : Var) (ability : Symbol)
deriving DecidableEq, BEq

/-- An obligation that `typ` must implement `ability`. -/
structure MustImplementAbility where
  typ : Symbol
  ability : Symbol
deriving DecidableEq, BEq

/-- The outcome of one (possibly recursive) unification. -/
structure Outcome where
  mismatches : List Mismatch
  mustImplement : List MustImplementAbility
deriving DecidableEq, BEq

/-- The empty outcome (`Outcome::default()`). -/
def emptyOutcome : Outcome := { mismatches := [], mustImplement := [] }

/-- Combine two outcomes (`Outcome::union`). -/
def Outcome.union (a b : Outcome) : Outcome :=
  { mismatches := a.mismatches ++ b.mismatches,
    mustImplement := a.mustImplement ++ b.mustImplement }

/-- Outcome produced by the `mismatch!` macro without an ability. -/
def mismatchOutcome : Outcome := { mismatches := [.typeMismatch], mustImplement := [] }

/-- Outcome produced by the `mismatch!(%not_able, var, ability, ..)` macro. -/
def notAbleOutcome (v : Var) (ability : Symbol) : Outcome :=
  { mismatches := [.typeMismatch, .doesNotImplementAbility v ability], mustImplement := [] }

/-- Outcome carrying the single `TypeNotInRange` mismatch. -/
def typeNotInRangeOutcome : Outcome :=
  { mismatches := [.typeNotInRange], mustImplement := [] }

/-- The pool of variables touched during a unification call. -/
abbrev Pool := List Var

/-- The dispatch context built by `unify_pool`. -/
structure Context where
  first : Var
  firstDesc : Descriptor
  second : Var
  secondDesc : Descriptor
  mode : Mode

/-- Descriptor built by `merge`: given content, minimum rank, neutral
mark and copy. -/
def mergeDesc (ctx : Context) (content : Content) : Descriptor :=
  { content := content,
    rank := min ctx.firstDesc.rank ctx.secondDesc.rank,
    mark := 0,
    copy := none }

/-- The `merge` function of `unify.rs`: union the two context variables
under the given content and return an empty outcome. -/
def merge (s : Subs) (ctx : Context) (content : Content) : Outcome × Subs :=
  (emptyOutcome, s.union ctx.first ctx.second (mergeDesc ctx content))

/-- The `register` function of `unify.rs`: allocate a fresh variable and
push it into the pool. -/
def register (s : Subs) (p : Pool) (d : Descriptor) : Var × Subs × Pool :=
  let (v, s1) := s.fresh d
  (v, s1, p ++ [v])

/-- The `fresh` function of `unify.rs`: register a variable carrying the
given content at the merged rank. -/
def fresh (s : Subs) (p : Pool) (ctx : Context) (content : Content) : Var × Subs × Pool :=
  register s p (mergeDesc ctx content)

/-- The `is_recursion_var` helper of `unify.rs`. -/
def isRecursionVar (s : Subs) (v : Var) : Bool :=
  match s.getContent v with
  | .recursionVar _ _ => true
  | _ => false

/-- Option fallback mirroring Rust `Option::or`. -/
def optOr (a b : Option A) : Option A :=
  match a with
  | some x => some x
  | none => b

/-- The fields of `unify_flex` in `unify.rs` (handles both `FlexVar` and
`FlexAbleVar` on the left). -/
def unifyFlex (s : Subs) (ctx : Context) (optName : Option Name)
    (optAbleBound : Option Symbol) (other : Content) : Outcome × Subs :=
  match other with
  | .flexVar none =>
    match optAbleBound with
    | some ability => merge s ctx (.flexAbleVar optName ability)
    | none => merge s ctx (.flexVar optName)
  | .flexAbleVar optOtherName otherAbility =>
    let optName2 := optOr optOtherName optName
    match optAbleBound with
    | some ability =>
      if ability == otherAbility then merge s ctx (.flexAbleVar optName2 ability)
      else (notAbleOutcome ctx.second ability, s)
    | none => merge s ctx (.flexAbleVar optName2 otherAbility)
  | .flexVar (some n) => merge s ctx (.flexVar (some n))
  | .rigidVar x => merge s ctx (.rigidVar x)
  | .rigidAbleVar x a => merge s ctx (.rigidAbleVar x a)
  | .recursionVar x sv => merge s ctx (.recursionVar x sv)
  | .structure ft => merge s ctx (.structure ft)
  | .alias sy ar rv k => merge s ctx (.alias sy ar rv k)
  | .rangedNumber rv rs => merge s ctx (.rangedNumber rv rs)
  | .error => merge s ctx .error

/-- The `unify_rigid` function of `unify.rs` (handles both `RigidVar`
and `RigidAbleVar` on the left). -/
def unifyRigid (s : Subs) (ctx : Context) (name : Name)
    (optAbleBound : Option Symbol) (other : Content) : Outcome × Subs :=
  match other with
  | .flexVar _ => merge s ctx (.rigidVar name)
  | .flexAbleVar _ otherAbility =>
    match optAbleBound with
    | some ability =>
      if ability == otherAbility then merge s ctx (.rigidAbleVar name ability)
      else (notAbleOutcome ctx.second ability, s)
    | none => (notAbleOutcome ctx.first otherAbility, s)
  | .rigidAbleVar _ _ => (mismatchOutcome, s)
  | .error => merge s ctx .error
  | other =>
    if ctx.mode.rigidAsFlex then
      match optAbleBound, other with
      | none, other => merge s ctx other
      | some ability, .alias opaqueName vars rv .opaqueKind =>
        if vars.isEmpty then
          let (o, s1) := merge s ctx (.alias opaqueName vars rv .opaqueKind)
          ({ o with mustImplement := o.mustImplement ++ [⟨opaqueName, ability⟩] }, s1)
        else (notAbleOutcome ctx.second ability, s)
      | some ability, _ => (notAbleOutcome ctx.second ability, s)
    else (mismatchOutcome, s)

/-- First contents whose `unify_context` dispatch is a leaf handler -
`unify_flex`, `unify_rigid` or the `Error` merge - every one of whose
success exits ends in a `merge` of the two context variables. -/
def alwaysMerges : Content → Bool
  | .flexVar _ => true
  | .flexAbleVar _ _ => true
  | .rigidVar _ => true
  | .rigidAbleVar _ _ => true
  | .error => true
  | _ => false

/-- Whether a content is a `FlexVar`: as the second content, every
dispatch arm matching it ends in a `merge` of the two context
variables. -/
def isFlexContent : Content → Bool
  | .flexVar _ => true
  | _ => false

/-- The `has_only_optional_fields` check on record rows. -/
def hasOnlyOptionalFields (fields : RecordFields) : Bool :=
  fields.all fun f =>
    match f.2 with
    | .optional _ => true
    | _ => false

/-- Fueled worker for `merge_sorted` of `unify.rs`; the fuel is the sum
of the lengths, so exhaustion is unreachable through the wrapper. -/
def mergeSortedByGo (cmp : K → K → Ordering) :
    Nat → List (K × V) → List (K × V) → List (K × V)
  | 0, xs, ys => xs ++ ys
  | _ + 1, [], ys => ys
  | _ + 1, x :: xs, [] => x :: xs
  | f + 1, x :: xs, y :: ys =>
    match cmp x.1 y.1 with
    | .lt => x :: mergeSortedByGo cmp f xs (y :: ys)
    | .eq => x :: mergeSortedByGo cmp f xs ys
    | .gt => y :: mergeSortedByGo cmp f (x :: xs) ys

/-- The `merge_sorted` function of `unify.rs`: merge two key-sorted
association lists, keeping the left value on equal keys. -/
def mergeSortedBy (cmp : K → K → Ordering) (xs ys : List (K × V)) : List (K × V) :=
  mergeSortedByGo cmp (xs.length + ys.length + 1) xs ys

/-- Result of `separate` in `unify.rs`. -/
structure Separate (K V : Type) where
  onlyIn1 : List (K × V)
  onlyIn2 : List (K × V)
  inBoth : List (K × (V × V))

/-- Fueled worker for `separate` of `unify.rs`. -/
def separateGo (cmp : K → K → Ordering) :
    Nat → List (K × V) → List (K × V) → Separate K V
  | 0, xs, ys => { onlyIn1 := xs, onlyIn2 := ys, inBoth := [] }
  | _ + 1, [], ys => { onlyIn1 := [], onlyIn2 := ys, inBoth := [] }
  | _ + 1, x :: xs, [] => { onlyIn1 := x :: xs, onlyIn2 := [], inBoth := [] }
  | f + 1, x :: xs, y :: ys =>
    match cmp x.1 y.1 with
    | .lt =>
      let r := separateGo cmp f xs (y :: ys)
      { r with onlyIn1 := x :: r.onlyIn1 }
    | .eq =>
      let r := separateGo cmp f xs ys
      { r with inBoth := (x.1, (x.2, y.2)) :: r.inBoth }
    | .gt =>
      let r := separateGo cmp f (x :: xs) ys
      { r with onlyIn2 := y :: r.onlyIn2 }

/-- The `separate` function of `unify.rs` on two key-sorted lists. -/
def separate (cmp : K → K → Ordering) (xs ys : List (K × V)) : Separate K V :=
  separateGo cmp (xs.length + ys.length + 1) xs ys

/-- Insertion into a key-sorted list, used to canonicalize rows. -/
def insertByKey (cmp : K → K → Ordering) (x : K × V) :
    List (K × V) → List (K × V)
  | [] => [x]
  | y :: ys =>
    match cmp x.1 y.1 with
    | .gt => y :: insertByKey cmp x ys
    | _ => x :: y :: ys

/-- Sort an association list by its keys. -/
def sortByKey (cmp : K → K → Ordering) (l : List (K × V)) : List (K × V) :=
  l.foldr (insertByKey cmp) []

/-- Comparison for field names. -/
def fieldCmp (a b : FieldName) : Ordering := compare a b

/-- Modelled from the spec (section 4.2.4, canonicalizing a row by
sliding its `ext` tail): gather the record fields reachable from `ext`,
following chained record structures and structural aliases, returning
the sorted fields and the final tail variable.  The real implementation
is `RecordFields::sorted_iterator_and_ext` in `roc_types`. -/
def gatherRecFields : Nat → Subs → RecordFields → Var → RecordFields × Var
  | 0, _, acc, ext => (sortByKey fieldCmp acc, ext)
  | f + 1, s, acc, ext =>
    match s.getContent ext with
    | .structure (.record fs e2) => gatherRecFields f s (acc ++ fs) e2
    | .alias _ _ real _ => gatherRecFields f s acc real
    | _ => (sortByKey fieldCmp acc, ext)

/-- Modelled from the spec (section 4.2.5, canonicalizing a tag row by
sliding its `ext` tail): gather the tags reachable from `ext`, following
chained tag unions, function-or-tag-unions and structural aliases.  The
real implementation is `UnionTags::sorted_slices_iterator_and_ext` in
`roc_types`. -/
def gatherTags : Nat → Subs → UnionTags → Var → UnionTags × Var
  | 0, _, acc, ext => (sortByKey TagName.cmp acc, ext)
  | f + 1, s, acc, ext =>
    match s.getContent ext with
    | .structure (.tagUnion ts e2) => gatherTags f s (acc ++ ts) e2
    | .structure (.functionOrTagUnion tn _ e2) => gatherTags f s (acc ++ [(tn, [])]) e2
    | .alias _ _ real _ => gatherTags f s acc real
    | _ => (sortByKey TagName.cmp acc, ext)

/-- The `separate_record_fields` function of `unify.rs`. -/
def separateRecordFields (fuel : Nat) (s : Subs)
    (fields1 : RecordFields) (ext1 : Var) (fields2 : RecordFields) (ext2 : Var) :
    Separate FieldName (RecordField Var) × Var × Var :=
  let (it1, newExt1) := gatherRecFields fuel s fields1 ext1
  let (it2, newExt2) := gatherRecFields fuel s fields2 ext2
  (separate fieldCmp it1 it2, newExt1, newExt2)

/-- The `separate_union_tags` function of `unify.rs`. -/
def separateUnionTags (fuel : Nat) (s : Subs)
    (tags1 : UnionTags) (ext1 : Var) (tags2 : UnionTags) (ext2 : Var) :
    Separate TagName (List Var) × Var × Var :=
  let (it1, newExt1) := gatherTags fuel s tags1 ext1
  let (it2, newExt2) := gatherTags fuel s tags2 ext2
  (separate TagName.cmp it1 it2, newExt1, newExt2)

/-- Immediate child variables of a flat type, for the occurs check. -/
def flatChildren : FlatType → List Var
  | .apply _ args => args
  | .func args closure ret => args ++ [closure, ret]
  | .record fs e => fs.map (fun f => f.2.intoInner) ++ [e]
  | .tagUnion ts e => (ts.map Prod.snd).flatten ++ [e]
  | .functionOrTagUnion _ _ e => [e]
  | .recursiveTagUnion r ts e => r :: (ts.map Prod.snd).flatten ++ [e]
  | .emptyRecord => []
  | .emptyTagUnion => []

/-- Immediate child variables of a content; when `includeRec` is false a
recursion variable stops the walk (plain `occurs`), when true its
structure is followed (`occurs_including_recursion_vars`). -/
def contentChildren (includeRec : Bool) : Content → List Var
  | .flexVar _ => []
  | .flexAbleVar _ _ => []
  | .rigidVar _ => []
  | .rigidAbleVar _ _ => []
  | .error => []
  | .recursionVar _ sv => if includeRec then [sv] else []
  | .structure ft => flatChildren ft
  | .alias _ args real _ => args ++ [real]
  | .rangedNumber real range => real :: range

/-- Modelled from the spec (section 4.1 `occurs`): search for a path
from the children of `cur` back to the class `target`, returning the
chain when one exists.  The real implementation lives in `roc_types`. -/
def occursAux : Nat → Subs → Bool → Var → Var → Option (List Var)
  | 0, _, _, _, _ => none
  | f + 1, s, includeRec, target, cur =>
    (contentChildren includeRec (s.getContent cur)).findSome? fun c =>
      if s.root c == target then some [c]
      else (occursAux f s includeRec target c).map (fun chain => c :: chain)

/-- Modelled from the spec: `occurs(v)`; `some (root, chain)` plays the
role of `Err((root, chain))` and `none` the role of `Ok(())`. -/
def occursCheck (fuel : Nat) (s : Subs) (includeRec : Bool) (v : Var) :
    Option (Var × List Var) :=
  match occursAux fuel s includeRec (s.root v) v with
  | some chain => some (v, v :: chain)
  | none => none

/-- Modelled from the spec (section 4.1 `mark_tag_union_recursive`):
rewrite the tag union at `v` into a recursive tag union by allocating a
fresh recursion variable pointing back at `v` and substituting it for
every occurrence of `v` in the tags and the ext. -/
def markTagUnionRecursive (s : Subs) (v : Var) (tags : UnionTags) (extVar : Var) : Subs :=
  let (recVar, s1) := s.fresh (descriptorOf (.recursionVar none v))
  let subst := fun w => if s1.root w == s1.root v then recVar else w
  let newTags := tags.map fun t => (t.1, t.2.map subst)
  let newExt := subst extVar
  let d := s1.get v
  s1.set v { d with content := .structure (.recursiveTagUnion recVar newTags newExt) }

/-- Find the first variable in the list whose content is a (non
recursive) tag union. -/
def findTagUnionIn (s : Subs) : List Var → Option (Var × UnionTags × Var)
  | [] => none
  | v :: rest =>
    match s.getContent v with
    | .structure (.tagUnion tags extVar) => some (v, tags, extVar)
    | _ => findTagUnionIn s rest

/-- The `maybe_mark_tag_union_recursive` function of `unify.rs`: while
the occurs check reports a cycle, promote a tag union on the cycle to a
recursive tag union.  `none` models the `panic!` when the cycle contains
no tag union (or fuel exhaustion of the loop). -/
def maybeMarkTagUnionRecursive : Nat → Subs → Var → Option Subs
  | 0, _, _ => none
  | f + 1, s, tagUnionVar =>
    match occursCheck (f + 1) s false tagUnionVar with
    | none => some s
    | some (recursive, chain) =>
      match s.getContent recursive with
      | .structure (.tagUnion tags extVar) =>
        maybeMarkTagUnionRecursive f (markTagUnionRecursive s recursive tags extVar) tagUnionVar
      | _ =>
        match findTagUnionIn s chain.dropLast with
        | some (w, tags, extVar) =>
          maybeMarkTagUnionRecursive f (markTagUnionRecursive s w tags extVar) tagUnionVar
        | none => none

/-- The `fix_tag_union_recursion_variable` function of `unify.rs`. -/
def fixTagUnionRecursionVariable (fuel : Nat) (s : Subs) (ctx : Context)
    (tagUnionPromotedToRecursive : Var) (recursionVar : Content) : Outcome × Subs :=
  let hasRecursingRecursiveVariable :=
    (occursCheck fuel s true tagUnionPromotedToRecursive).isSome
  if !hasRecursingRecursiveVariable then merge s ctx recursionVar
  else (emptyOutcome, s)

/-- The shared-field combination of `unify_shared_fields` (the match on
the pair of record fields); `none` plays the role of the `continue` on
the demanded-optional clash. -/
def combineSharedField :
    RecordField Var → RecordField Var → Option (RecordField Var)
  | .demanded _, .optional _ => none
  | .optional _, .demanded _ => none
  | .demanded val, .required _ => some (.demanded val)
  | .required val, .demanded _ => some (.demanded val)
  | .demanded val, .demanded _ => some (.demanded val)
  | .required val, .required _ => some (.required val)
  | .required val, .optional _ => some (.required val)
  | .optional val, .required _ => some (.required val)
  | .optional val, .optional _ => some (.optional val)

/-- The `Rec` bookkeeping for recursive tag unions in `unify.rs`. -/
inductive Rec where
  | none
  | left (v : Var)
  | right (v : Var)
  | both (v w : Var)

/-- Whether the recursion marker is `Rec::Right`. -/
def Rec.isRight : Rec → Bool
  | .right _ => true
  | _ => false

/-- The `OtherFields` enumeration of `unify.rs`. -/
inductive OtherFields where
  | none
  | other (fields1 fields2 : RecordFields)

/-- The `OtherTags2` enumeration of `unify.rs`. -/
inductive OtherTags2 where
  | empty
  | union (tags1 tags2 : List (TagName × List Var))

/-- The `unify_shared_tags_merge_new` function of `unify.rs`. -/
def unifySharedTagsMergeNew (s : Subs) (ctx : Context) (newTags : UnionTags)
    (newExtVar : Var) (recursionVar : Rec) : Outcome × Subs :=
  let flatType :=
    match recursionVar with
    | .none => FlatType.tagUnion newTags newExtVar
    | .left r => FlatType.recursiveTagUnion r newTags newExtVar
    | .right r => FlatType.recursiveTagUnion r newTags newExtVar
    | .both r _ => FlatType.recursiveTagUnion r newTags newExtVar
  merge s ctx (.structure flatType)

/-- The result triple threaded through the unifier: outcome, store, pool. -/
abbrev UnifyResult := Outcome × Subs × Pool

/-- Shape of a recursive unification callback (a partially applied
`unify_pool` at one fuel less). -/
abbrev Up := Subs → Pool → Var → Var → Mode → Option UnifyResult

/-- Loop body of `unify_zip_slices` in `unify.rs`: pairwise unification
of two variable slices, always in `Mode::EQ`. -/
def zipGoEQ (up : Up) : List (Var × Var) → Outcome → Subs → Pool → Option UnifyResult
  | [], acc, s, p => some (acc, s, p)
  | (l, r) :: rest, acc, s, p =>
    match up s p l r Mode.eqMode with
    | none => none
    | some (o, s1, p1) => zipGoEQ up rest (acc.union o) s1 p1

/-- Modelled from the spec, for comparison only: the same pairwise loop
but propagating an ambient mode into each argument unification. -/
def zipGoModed (up : Up) (m : Mode) : List (Var × Var) → Outcome → Subs → Pool → Option UnifyResult
  | [], acc, s, p => some (acc, s, p)
  | (l, r) :: rest, acc, s, p =>
    match up s p l r m with
    | none => none
    | some (o, s1, p1) => zipGoModed up m rest (acc.union o) s1 p1

/-- Loop over zipped alias argument pairs in `unify_alias`, accumulating
the outcome and continuing past mismatches. -/
def aliasArgsGo (up : Up) (m : Mode) :
    List (Var × Var) → Outcome → Subs → Pool → Option UnifyResult
  | [], acc, s, p => some (acc, s, p)
  | (l, r) :: rest, acc, s, p =>
    match up s p l r m with
    | none => none
    | some (o, s1, p1) => aliasArgsGo up m rest (acc.union o) s1 p1

/-- Loop of `unify_shared_fields` over the shared fields: unify each
pair of field variables, and keep the combined field when the pair
unified cleanly and the field kinds are compatible. -/
def sharedFieldsGo (up : Subs → Pool → Var → Var → Option UnifyResult) :
    List (FieldName × (RecordField Var × RecordField Var)) →
    List (FieldName × RecordField Var) → Subs → Pool →
    Option (List (FieldName × RecordField Var) × Subs × Pool)
  | [], acc, s, p => some (acc, s, p)
  | (name, (actual, expected)) :: rest, acc, s, p =>
    match up s p actual.intoInner expected.intoInner with
    | none => none
    | some (o, s1, p1) =>
      if o.mismatches.isEmpty then
        match combineSharedField actual expected with
        | none => sharedFieldsGo up rest acc s1 p1
        | some fld => sharedFieldsGo up rest (acc ++ [(name, fld)]) s1 p1
      else sharedFieldsGo up rest acc s1 p1

/-- Inner loop of `unify_shared_tags_new` over one tag's zipped payload
variables: promote freshly recursive tag unions, unify the pair, and
collect the surviving variable (the expected one under `Rec::Right`). -/
def payloadGo (up : Subs → Pool → Var → Var → Option UnifyResult)
    (mm : Subs → Var → Option Subs) (recRight : Bool) :
    List (Var × Var) → List Var → Subs → Pool → Option (List Var × Subs × Pool)
  | [], acc, s, p => some (acc, s, p)
  | (actual, expected) :: rest, acc, s, p =>
    match mm s actual with
    | none => none
    | some s1 =>
      match mm s1 expected with
      | none => none
      | some s2 =>
        match up s2 p actual expected with
        | none => none
        | some (o, s3, p3) =>
          let acc2 :=
            if o.mismatches.isEmpty then
              acc ++ [if recRight then expected else actual]
            else acc
          payloadGo up mm recRight rest acc2 s3 p3

/-- Outer loop of `unify_shared_tags_new` over the shared tags. -/
def sharedTagsGo (up : Subs → Pool → Var → Var → Option UnifyResult)
    (mm : Subs → Var → Option Subs) (recRight : Bool) :
    List (TagName × (List Var × List Var)) →
    List (TagName × List Var) → Subs → Pool →
    Option (List (TagName × List Var) × Subs × Pool)
  | [], acc, s, p => some (acc, s, p)
  | (name, (actualVars, expectedVars)) :: rest, acc, s, p =>
    match payloadGo up mm recRight (actualVars.zip expectedVars) [] s p with
    | none => none
    | some (matchingVars, s1, p1) =>
      let acc2 :=
        if actualVars.length == expectedVars.length &&
           actualVars.length == matchingVars.length then
          acc ++ [(name, matchingVars)]
        else acc
      sharedTagsGo up mm recRight rest acc2 s1 p1

/-- Loop of `check_valid_range` over the candidate list: each attempt
runs against the snapshot state `s`; success rolls back and returns the
empty outcome, a failed non-final attempt rolls back and continues, and
a failed final attempt is committed with the `TypeNotInRange` outcome. -/
def checkValidRangeGo (up : Up) (v : Var) (m : Mode) (s : Subs) (p : Pool) :
    List Var → Option UnifyResult
  | [] => some (typeNotInRangeOutcome, s, p)
  | [c] =>
    match up s p v c (m.withRigidAsFlex) with
    | none => none
    | some (o, s1, p1) =>
      if o.mismatches.isEmpty then some (emptyOutcome, s, p)
      else some (typeNotInRangeOutcome, s1, p1)
  | c :: c2 :: rest =>
    match up s p v c (m.withRigidAsFlex) with
    | none => none
    | some (o, _, _) =>
      if o.mismatches.isEmpty then some (emptyOutcome, s, p)
      else checkValidRangeGo up v m s p (c2 :: rest)

/-- Rendered error types; the renderer is modelled, so a variable simply
renders to its own index. -/
abbrev ErrorType := Nat

/-- Error-rendering contexts (`ErrorTypeContext`). -/
inductive ErrorTypeContext where
  | noContext
  | expandRanges
deriving DecidableEq, BEq

/-- Modelled from the spec (section 6, outputs): `var_to_error_type_contextual`
renders a variable to an `ErrorType` for diagnostics, reporting problems
only when rendering uncovers a defect; the model renders the variable to
its index and reports no problems.  The real implementation lives in
`roc_types`. -/
def varToErrorTypeContextual (_s : Subs) (v : Var) (_c : ErrorTypeContext) :
    ErrorType × List Nat :=
  (v, [])

/-- The `Unified` result returned to the caller of the top-level `unify`. -/
inductive Unified where
  | success (vars : Pool) (mustImplementAbility : List MustImplementAbility)
  | failure (vars : Pool) (t1 t2 : ErrorType) (dni : List (ErrorType × Symbol))
  | badType (vars : Pool) (problem : Nat)
deriving DecidableEq, BEq

/-- Whether a `Unified` value is `Failure` or `BadType`. -/
def Unified.isFailing : Unified → Bool
  | .success _ _ => false
  | .failure _ _ _ _ => true
  | .badType _ _ => true

/-- Whether a `Unified` value is `Success`. -/
def Unified.isSuccess : Unified → Bool
  | .success _ _ => true
  | _ => false

set_option maxHeartbeats 3000000 in
mutual

/-- The `unify_pool` function of `unify.rs`: return the empty outcome on
already-equivalent variables, otherwise build a context from the two
root descriptors and dispatch. -/
def unifyPool : Nat → Subs → Pool → Var → Var → Mode → Option UnifyResult
  | 0, _, _, _, _, _ => none
  | fuel + 1, s, p, v1, v2, m =>
    if s.equivalent v1 v2 then some (emptyOutcome, s, p)
    else
      unifyContext fuel s p
        { first := v1, firstDesc := s.get v1,
          second := v2, secondDesc := s.get v2, mode := m }
termination_by structural x => x

/-- The `unify_context` function of `unify.rs`: dispatch on the first
content (debug tracing omitted). -/
def unifyContext : Nat → Subs → Pool → Context → Option UnifyResult
  | 0, _, _, _ => none
  | fuel + 1, s, p, ctx =>
    match ctx.firstDesc.content with
    | .flexVar optName =>
      let (o, s1) := unifyFlex s ctx optName none ctx.secondDesc.content
      some (o, s1, p)
    | .flexAbleVar optName ability =>
      let (o, s1) := unifyFlex s ctx optName (some ability) ctx.secondDesc.content
      some (o, s1, p)
    | .recursionVar optName structVar =>
      unifyRecursion fuel s p ctx optName structVar ctx.secondDesc.content
    | .rigidVar name =>
      let (o, s1) := unifyRigid s ctx name none ctx.secondDesc.content
      some (o, s1, p)
    | .rigidAbleVar name ability =>
      let (o, s1) := unifyRigid s ctx name (some ability) ctx.secondDesc.content
      some (o, s1, p)
    | .structure flatType => unifyStructure fuel s p ctx flatType ctx.secondDesc.content
    | .alias symbol args realVar kind => unifyAlias fuel s p ctx symbol args realVar kind
    | .rangedNumber typ rangeVars => unifyRangedNumber fuel s p ctx typ rangeVars
    | .error =>
      let (o, s1) := merge s ctx .error
      some (o, s1, p)
termination_by structural x => x

/-- The `unify_ranged_number` function of `unify.rs`. -/
def unifyRangedNumber : Nat → Subs → Pool → Context → Var → List Var → Option UnifyResult
  | 0, _, _, _, _, _ => none
  | fuel + 1, s, p, ctx, realVar, rangeVars =>
    let step : Option UnifyResult :=
      match ctx.secondDesc.content with
      | .flexVar _ =>
        let (o, s1) := merge s ctx (.rangedNumber realVar rangeVars)
        some (o, s1, p)
      | .recursionVar _ _ =>
        unifyPool fuel s p realVar ctx.second ctx.mode
      | .rigidVar _ =>
        unifyPool fuel s p realVar ctx.second ctx.mode
      | .alias _ _ _ _ =>
        unifyPool fuel s p realVar ctx.second ctx.mode
      | .structure _ =>
        unifyPool fuel s p realVar ctx.second ctx.mode
      | .rigidAbleVar _ _ =>
        unifyPool fuel s p realVar ctx.second ctx.mode
      | .flexAbleVar _ _ =>
        unifyPool fuel s p realVar ctx.second ctx.mode
      | .rangedNumber otherRealVar otherRangeVars =>
        match unifyPool fuel s p realVar otherRealVar ctx.mode with
        | none => none
        | some (o, s1, p1) =>
          if o.mismatches.isEmpty then
            checkValidRange fuel s1 p1 ctx.first otherRangeVars ctx.mode
          else some (o, s1, p1)
      | .error =>
        let (o, s1) := merge s ctx .error
        some (o, s1, p)
    match step with
    | none => none
    | some (o, s1, p1) =>
      if !o.mismatches.isEmpty then some (o, s1, p1)
      else checkValidRange fuel s1 p1 ctx.second rangeVars ctx.mode
termination_by structural x => x

/-- The `check_valid_range` function of `unify.rs`. -/
def checkValidRange : Nat → Subs → Pool → Var → List Var → Mode → Option UnifyResult
  | 0, _, _, _, _, _ => none
  | fuel + 1, s, p, v, range, m =>
    checkValidRangeGo (fun s2 p2 a b m2 => unifyPool fuel s2 p2 a b m2) v m s p range
termination_by structural x => x

/-- The `unify_alias` function of `unify.rs`. -/
def unifyAlias : Nat → Subs → Pool → Context → Symbol → List Var → Var → AliasKind → Option UnifyResult
  | 0, _, _, _, _, _, _, _ => none
  | fuel + 1, s, p, ctx, symbol, args, realVar, kind =>
    let otherContent := ctx.secondDesc.content
    let eitherIsOpaque := kind == .opaqueKind ||
      (match otherContent with | .alias _ _ _ .opaqueKind => true | _ => false)
    match otherContent with
    | .flexVar _ =>
      let (o, s1) := merge s ctx (.alias symbol args realVar kind)
      some (o, s1, p)
    | .recursionVar _ structVar =>
      if !eitherIsOpaque then unifyPool fuel s p realVar structVar ctx.mode
      else some (mismatchOutcome, s, p)
    | .rigidVar _ => unifyPool fuel s p realVar ctx.second ctx.mode
    | .rigidAbleVar _ _ => unifyPool fuel s p realVar ctx.second ctx.mode
    | .flexAbleVar _ ability =>
      if kind == .opaqueKind && args.isEmpty then
        let (o, s1) := merge s ctx (.alias symbol args realVar kind)
        some ({ o with mustImplement := o.mustImplement ++ [⟨symbol, ability⟩] }, s1, p)
      else some (mismatchOutcome, s, p)
    | .alias otherSymbol otherArgs otherRealVar _ =>
      if !eitherIsOpaque || symbol == otherSymbol then
        if symbol == otherSymbol then
          if args.length == otherArgs.length then
            let snapshotNext := s.next
            match aliasArgsGo (fun s2 p2 a b m2 => unifyPool fuel s2 p2 a b m2) ctx.mode
                (args.zip otherArgs) emptyOutcome s p with
            | none => none
            | some (o1, s1, p1) =>
              let (o2, s2) :=
                if o1.mismatches.isEmpty then
                  let (om, sm) := merge s1 ctx otherContent
                  (o1.union om, sm)
                else (o1, s1)
              let argsUnificationHadChanges := snapshotNext < s2.next
              if !args.isEmpty && argsUnificationHadChanges && o2.mismatches.isEmpty then
                match unifyPool fuel s2 p1 realVar otherRealVar ctx.mode with
                | none => none
                | some (o3, s3, p3) => some (o2.union o3, s3, p3)
              else some (o2, s2, p1)
          else some (mismatchOutcome, s, p)
        else unifyPool fuel s p realVar otherRealVar ctx.mode
      else some (mismatchOutcome, s, p)
    | .structure _ =>
      if !eitherIsOpaque then unifyPool fuel s p realVar ctx.second ctx.mode
      else some (mismatchOutcome, s, p)
    | .rangedNumber otherRealVar otherRangeVars =>
      if !eitherIsOpaque then
        match unifyPool fuel s p realVar otherRealVar ctx.mode with
        | none => none
        | some (o, s1, p1) =>
          if o.mismatches.isEmpty then
            checkValidRange fuel s1 p1 realVar otherRangeVars ctx.mode
          else some (o, s1, p1)
      else some (mismatchOutcome, s, p)
    | .error =>
      let (o, s1) := merge s ctx .error
      some (o, s1, p)
termination_by structural x => x

/-- The `unify_recursion` function of `unify.rs`. -/
def unifyRecursion : Nat → Subs → Pool → Context → Option Name → Var → Content → Option UnifyResult
  | 0, _, _, _, _, _, _ => none
  | fuel + 1, s, p, ctx, optName, structVar, other =>
    match other with
    | .recursionVar otherOptName _ =>
      let (o, s1) := merge s ctx (.recursionVar (optOr optName otherOptName) structVar)
      some (o, s1, p)
    | .structure _ => unifyPool fuel s p structVar ctx.second ctx.mode
    | .rigidVar _ => some (mismatchOutcome, s, p)
    | .flexAbleVar _ _ => some (mismatchOutcome, s, p)
    | .rigidAbleVar _ _ => some (mismatchOutcome, s, p)
    | .flexVar _ =>
      let (o, s1) := merge s ctx (.recursionVar optName structVar)
      some (o, s1, p)
    | .alias _ _ actual aliasKind =>
      if aliasKind == .opaqueKind then some (mismatchOutcome, s, p)
      else unifyPool fuel s p ctx.first actual ctx.mode
    | .rangedNumber _ _ => some (mismatchOutcome, s, p)
    | .error =>
      let (o, s1) := merge s ctx .error
      some (o, s1, p)
termination_by structural x => x

/-- The `unify_structure` function of `unify.rs`. -/
def unifyStructure : Nat → Subs → Pool → Context → FlatType → Content → Option UnifyResult
  | 0, _, _, _, _, _ => none
  | fuel + 1, s, p, ctx, flatType, other =>
    match other with
    | .flexVar _ =>
      let (o, s1) := merge s ctx (.structure flatType)
      let s2 :=
        if ctx.mode.isPresent then
          match flatType with
          | .tagUnion tags _ =>
            let (newExt, sa) := s1.freshUnnamedFlexVar
            sa.set ctx.first { ctx.firstDesc with content := .structure (.tagUnion tags newExt) }
          | .functionOrTagUnion tn sym _ =>
            let (newExt, sa) := s1.freshUnnamedFlexVar
            sa.set ctx.first
              { ctx.firstDesc with content := .structure (.functionOrTagUnion tn sym newExt) }
          | _ => s1
        else s1
      some (o, s2, p)
    | .rigidVar _ => some (mismatchOutcome, s, p)
    | .recursionVar _ structVar =>
      match flatType with
      | .tagUnion _ _ =>
        match unifyPool fuel s p ctx.first structVar ctx.mode with
        | none => none
        | some (o, s1, p1) =>
          if o.mismatches.isEmpty then
            let (o2, s2) := fixTagUnionRecursionVariable fuel s1 ctx ctx.first other
            some (o.union o2, s2, p1)
          else some (o, s1, p1)
      | .recursiveTagUnion _ _ _ => unifyPool fuel s p ctx.first structVar ctx.mode
      | .functionOrTagUnion _ _ _ =>
        match unifyPool fuel s p ctx.first structVar ctx.mode with
        | none => none
        | some (o, s1, p1) =>
          if o.mismatches.isEmpty then
            let (o2, s2) := fixTagUnionRecursionVariable fuel s1 ctx ctx.first other
            some (o.union o2, s2, p1)
          else some (o, s1, p1)
      | _ => some (mismatchOutcome, s, p)
    | .structure otherFlatType => unifyFlatType fuel s p ctx flatType otherFlatType
    | .alias _ _ realVar aliasKind =>
      match aliasKind with
      | .structural => unifyPool fuel s p ctx.first realVar ctx.mode.asEq
      | .opaqueKind => some (mismatchOutcome, s, p)
    | .rangedNumber otherRealVar otherRangeVars =>
      match unifyPool fuel s p ctx.first otherRealVar ctx.mode with
      | none => none
      | some (o, s1, p1) =>
        if o.mismatches.isEmpty then
          checkValidRange fuel s1 p1 ctx.first otherRangeVars ctx.mode
        else some (o, s1, p1)
    | .error =>
      let (o, s1) := merge s ctx .error
      some (o, s1, p)
    | .flexAbleVar _ ability => some (notAbleOutcome ctx.first ability, s, p)
    | .rigidAbleVar _ ability => some (notAbleOutcome ctx.first ability, s, p)
termination_by structural x => x

/-- The `unify_flat_type` function of `unify.rs`. -/
def unifyFlatType : Nat → Subs → Pool → Context → FlatType → FlatType → Option UnifyResult
  | 0, _, _, _, _, _ => none
  | fuel + 1, s, p, ctx, left, right =>
    match left, right with
    | .emptyRecord, .emptyRecord =>
      let (o, s1) := merge s ctx (.structure .emptyRecord)
      some (o, s1, p)
    | .record fields ext, .emptyRecord =>
      if hasOnlyOptionalFields fields then unifyPool fuel s p ext ctx.second ctx.mode
      else some (mismatchOutcome, s, p)
    | .emptyRecord, .record fields ext =>
      if hasOnlyOptionalFields fields then unifyPool fuel s p ctx.first ext ctx.mode
      else some (mismatchOutcome, s, p)
    | .record fields1 ext1, .record fields2 ext2 =>
      unifyRecord fuel s p ctx fields1 ext1 fields2 ext2
    | .emptyTagUnion, .emptyTagUnion =>
      let (o, s1) := merge s ctx (.structure .emptyTagUnion)
      some (o, s1, p)
    | .tagUnion tags ext, .emptyTagUnion =>
      if tags.isEmpty then unifyPool fuel s p ext ctx.second ctx.mode
      else some (mismatchOutcome, s, p)
    | .emptyTagUnion, .tagUnion tags ext =>
      if tags.isEmpty then unifyPool fuel s p ctx.first ext ctx.mode
      else some (mismatchOutcome, s, p)
    | .tagUnion tags1 ext1, .tagUnion tags2 ext2 =>
      unifyTagUnionNew fuel s p ctx tags1 ext1 tags2 ext2 .none
    | .recursiveTagUnion rec1 tags1 ext1, .tagUnion tags2 ext2 =>
      unifyTagUnionNew fuel s p ctx tags1 ext1 tags2 ext2 (.left rec1)
    | .tagUnion tags1 ext1, .recursiveTagUnion rec2 tags2 ext2 =>
      unifyTagUnionNew fuel s p ctx tags1 ext1 tags2 ext2 (.right rec2)
    | .recursiveTagUnion rec1 tags1 ext1, .recursiveTagUnion rec2 tags2 ext2 =>
      match unifyTagUnionNew fuel s p ctx tags1 ext1 tags2 ext2 (.both rec1 rec2) with
      | none => none
      | some (o, s1, p1) =>
        match unifyPool fuel s1 p1 rec1 rec2 ctx.mode with
        | none => none
        | some (o2, s2, p2) => some (o.union o2, s2, p2)
    | .apply lSymbol lArgs, .apply rSymbol rArgs =>
      if lSymbol == rSymbol then
        match unifyZipSlices fuel s p lArgs rArgs with
        | none => none
        | some (o, s1, p1) =>
          if o.mismatches.isEmpty then
            let (o2, s2) := merge s1 ctx (.structure (.apply rSymbol rArgs))
            some (o.union o2, s2, p1)
          else some (o, s1, p1)
      else some (mismatchOutcome, s, p)
    | .func lArgs lClosure lRet, .func rArgs rClosure rRet =>
      if lArgs.length == rArgs.length then
        match unifyZipSlices fuel s p lArgs rArgs with
        | none => none
        | some (argOutcome, s1, p1) =>
          match unifyPool fuel s1 p1 lRet rRet ctx.mode with
          | none => none
          | some (retOutcome, s2, p2) =>
            match unifyPool fuel s2 p2 lClosure rClosure ctx.mode with
            | none => none
            | some (closureOutcome, s3, p3) =>
              let o := (retOutcome.union closureOutcome).union argOutcome
              if o.mismatches.isEmpty then
                let (o2, s4) := merge s3 ctx (.structure (.func rArgs rClosure rRet))
                some (o.union o2, s4, p3)
              else some (o, s3, p3)
      else some (mismatchOutcome, s, p)
    | .functionOrTagUnion tagName tagSymbol ext, .func args closure ret =>
      unifyFunctionOrTagUnionAndFunc fuel s p ctx tagName tagSymbol ext args ret closure true
    | .func args closure ret, .functionOrTagUnion tagName tagSymbol ext =>
      unifyFunctionOrTagUnionAndFunc fuel s p ctx tagName tagSymbol ext args ret closure false
    | .functionOrTagUnion tagName1 _ ext1, .functionOrTagUnion tagName2 _ ext2 =>
      if tagName1 == tagName2 then
        match unifyPool fuel s p ext1 ext2 ctx.mode with
        | none => none
        | some (o, s1, p1) =>
          if o.mismatches.isEmpty then
            let content := s1.getContent ctx.second
            let (o2, s2) := merge s1 ctx content
            some (o2, s2, p1)
          else some (o, s1, p1)
      else
        unifyTagUnionNew fuel s p ctx [(tagName1, [])] ext1 [(tagName2, [])] ext2 .none
    | .tagUnion tags1 ext1, .functionOrTagUnion tagName _ ext2 =>
      unifyTagUnionNew fuel s p ctx tags1 ext1 [(tagName, [])] ext2 .none
    | .functionOrTagUnion tagName _ ext1, .tagUnion tags2 ext2 =>
      unifyTagUnionNew fuel s p ctx [(tagName, [])] ext1 tags2 ext2 .none
    | .recursiveTagUnion rec1 tags1 ext1, .functionOrTagUnion tagName _ ext2 =>
      unifyTagUnionNew fuel s p ctx tags1 ext1 [(tagName, [])] ext2 (.left rec1)
    | .functionOrTagUnion tagName _ ext1, .recursiveTagUnion rec2 tags2 ext2 =>
      unifyTagUnionNew fuel s p ctx [(tagName, [])] ext1 tags2 ext2 (.right rec2)
    | _, _ => some (mismatchOutcome, s, p)
termination_by structural x => x

/-- The `unify_zip_slices` function of `unify.rs`: pairwise unification
of the two argument slices, always under `Mode::EQ`. -/
def unifyZipSlices : Nat → Subs → Pool → List Var → List Var → Option UnifyResult
  | 0, _, _, _, _ => none
  | fuel + 1, s, p, left, right =>
    zipGoEQ (fun s2 p2 a b m2 => unifyPool fuel s2 p2 a b m2) (left.zip right) emptyOutcome s p
termination_by structural x => x

/-- The `unify_record` function of `unify.rs`. -/
def unifyRecord : Nat → Subs → Pool → Context → RecordFields → Var → RecordFields → Var → Option UnifyResult
  | 0, _, _, _, _, _, _, _ => none
  | fuel + 1, s, p, ctx, fields1, ext1, fields2, ext2 =>
    let (sep, sExt1, sExt2) := separateRecordFields (fuel + 1) s fields1 ext1 fields2 ext2
    let sharedFields := sep.inBoth
    if sep.onlyIn1.isEmpty then
      if sep.onlyIn2.isEmpty then
        match unifyPool fuel s p sExt1 sExt2 ctx.mode with
        | none => none
        | some (extOutcome, s1, p1) =>
          if !extOutcome.mismatches.isEmpty then some (extOutcome, s1, p1)
          else
            match unifySharedFields fuel s1 p1 ctx sharedFields .none sExt1 with
            | none => none
            | some (fieldOutcome, s2, p2) => some (fieldOutcome.union extOutcome, s2, p2)
      else
        let onlyIn2 := sep.onlyIn2
        let (subRecord, s1, p1) := fresh s p ctx (.structure (.record onlyIn2 sExt2))
        match unifyPool fuel s1 p1 sExt1 subRecord ctx.mode with
        | none => none
        | some (extOutcome, s2, p2) =>
          if !extOutcome.mismatches.isEmpty then some (extOutcome, s2, p2)
          else
            match unifySharedFields fuel s2 p2 ctx sharedFields .none subRecord with
            | none => none
            | some (fieldOutcome, s3, p3) => some (fieldOutcome.union extOutcome, s3, p3)
    else if sep.onlyIn2.isEmpty then
      let onlyIn1 := sep.onlyIn1
      let (subRecord, s1, p1) := fresh s p ctx (.structure (.record onlyIn1 sExt1))
      match unifyPool fuel s1 p1 subRecord sExt2 ctx.mode with
      | none => none
      | some (extOutcome, s2, p2) =>
        if !extOutcome.mismatches.isEmpty then some (extOutcome, s2, p2)
        else
          match unifySharedFields fuel s2 p2 ctx sharedFields .none subRecord with
          | none => none
          | some (fieldOutcome, s3, p3) => some (fieldOutcome.union extOutcome, s3, p3)
    else
      let onlyIn1 := sep.onlyIn1
      let onlyIn2 := sep.onlyIn2
      let otherFields := OtherFields.other onlyIn1 onlyIn2
      let (extV, s1, p1) := fresh s p ctx (.flexVar none)
      let (sub1, s2, p2) := fresh s1 p1 ctx (.structure (.record onlyIn1 extV))
      let (sub2, s3, p3) := fresh s2 p2 ctx (.structure (.record onlyIn2 extV))
      match unifyPool fuel s3 p3 sExt1 sub2 ctx.mode with
      | none => none
      | some (rec1Outcome, s4, p4) =>
        if !rec1Outcome.mismatches.isEmpty then some (rec1Outcome, s4, p4)
        else
          match unifyPool fuel s4 p4 sub1 sExt2 ctx.mode with
          | none => none
          | some (rec2Outcome, s5, p5) =>
            if !rec2Outcome.mismatches.isEmpty then some (rec2Outcome, s5, p5)
            else
              match unifySharedFields fuel s5 p5 ctx sharedFields otherFields extV with
              | none => none
              | some (fieldOutcome, s6, p6) =>
                some ((fieldOutcome.union rec1Outcome).union rec2Outcome, s6, p6)
termination_by structural x => x

/-- The `unify_shared_fields` function of `unify.rs`. -/
def unifySharedFields : Nat → Subs → Pool → Context →
    List (FieldName × (RecordField Var × RecordField Var)) → OtherFields → Var → Option UnifyResult
  | 0, _, _, _, _, _, _ => none
  | fuel + 1, s, p, ctx, sharedFields, otherFields, extv =>
    match sharedFieldsGo (fun s2 p2 a b => unifyPool fuel s2 p2 a b ctx.mode)
        sharedFields [] s p with
    | none => none
    | some (matchingFields, s1, p1) =>
      if sharedFields.length == matchingFields.length then
        let (extFields, newExtVar) := gatherRecFields (fuel + 1) s1 [] extv
        let fields :=
          match otherFields with
          | .none =>
            if extFields.isEmpty then matchingFields
            else mergeSortedBy fieldCmp matchingFields extFields
          | .other other1 other2 =>
            let allFields := mergeSortedBy fieldCmp matchingFields extFields
            let allFields2 := mergeSortedBy fieldCmp allFields other1
            mergeSortedBy fieldCmp allFields2 other2
        let (o, s2) := merge s1 ctx (.structure (.record fields newExtVar))
        some (o, s2, p1)
      else some (mismatchOutcome, s1, p1)
termination_by structural x => x

/-- The `unify_tag_union_new` function of `unify.rs`. -/
def unifyTagUnionNew : Nat → Subs → Pool → Context → UnionTags → Var → UnionTags → Var → Rec → Option UnifyResult
  | 0, _, _, _, _, _, _, _, _ => none
  | fuel + 1, s, p, ctx, tags1, initialExt1, tags2, initialExt2, recursionVar =>
    let (sep, ext1a, ext2) := separateUnionTags (fuel + 1) s tags1 initialExt1 tags2 initialExt2
    let sharedTags := sep.inBoth
    let (ext1, s0, p0) :=
      if ctx.mode.isPresent && s.getContent ext1a == .structure .emptyTagUnion then
        if !sep.onlyIn2.isEmpty then
          let (newExt, s1, p1) := fresh s p ctx (.flexVar none)
          let s2 := s1.set ctx.first
            { ctx.firstDesc with content := .structure (.tagUnion tags1 newExt) }
          (newExt, s2, p1)
        else (ext1a, s, p)
      else (ext1a, s, p)
    if sep.onlyIn1.isEmpty then
      if sep.onlyIn2.isEmpty then
        let extStep : Option UnifyResult :=
          if ctx.mode.isEq then unifyPool fuel s0 p0 ext1 ext2 ctx.mode
          else some (emptyOutcome, s0, p0)
        match extStep with
        | none => none
        | some (extOutcome, s1, p1) =>
          if !extOutcome.mismatches.isEmpty then some (extOutcome, s1, p1)
          else
            match unifySharedTagsNew fuel s1 p1 ctx sharedTags .empty ext1 recursionVar with
            | none => none
            | some (o, s2, p2) => some (o.union extOutcome, s2, p2)
      else
        let uniqueTags2 := sep.onlyIn2
        let (subRecord, s1, p1) := fresh s0 p0 ctx (.structure (.tagUnion uniqueTags2 ext2))
        match unifyPool fuel s1 p1 ext1 subRecord ctx.mode with
        | none => none
        | some (extOutcome, s2, p2) =>
          if !extOutcome.mismatches.isEmpty then some (extOutcome, s2, p2)
          else
            match unifySharedTagsNew fuel s2 p2 ctx sharedTags .empty subRecord recursionVar with
            | none => none
            | some (o, s3, p3) => some (o.union extOutcome, s3, p3)
    else if sep.onlyIn2.isEmpty then
      let uniqueTags1 := sep.onlyIn1
      let (subRecord, s1, p1) := fresh s0 p0 ctx (.structure (.tagUnion uniqueTags1 ext1))
      if ctx.mode.isEq then
        match unifyPool fuel s1 p1 subRecord ext2 ctx.mode with
        | none => none
        | some (extOutcome, s2, p2) =>
          if !extOutcome.mismatches.isEmpty then some (extOutcome, s2, p2)
          else unifySharedTagsNew fuel s2 p2 ctx sharedTags .empty subRecord recursionVar
      else unifySharedTagsNew fuel s1 p1 ctx sharedTags .empty subRecord recursionVar
    else
      let otherTags := OtherTags2.union sep.onlyIn1 sep.onlyIn2
      let uniqueTags1 := sep.onlyIn1
      let uniqueTags2 := sep.onlyIn2
      let extContent :=
        if ctx.mode.isPresent then Content.structure .emptyTagUnion
        else Content.flexVar none
      let (extV, s1, p1) := fresh s0 p0 ctx extContent
      let (sub1, s2, p2) := fresh s1 p1 ctx (.structure (.tagUnion uniqueTags1 extV))
      let (sub2, s3, p3) := fresh s2 p2 ctx (.structure (.tagUnion uniqueTags2 extV))
      match unifyPool fuel s3 p3 ext1 sub2 ctx.mode with
      | none => none
      | some (ext1Outcome, s4, p4) =>
        if !ext1Outcome.mismatches.isEmpty then some (ext1Outcome, s3, p4)
        else
          if ctx.mode.isEq then
            match unifyPool fuel s4 p4 sub1 ext2 ctx.mode with
            | none => none
            | some (ext2Outcome, s5, p5) =>
              if !ext2Outcome.mismatches.isEmpty then some (ext2Outcome, s3, p5)
              else unifySharedTagsNew fuel s5 p5 ctx sharedTags otherTags extV recursionVar
          else unifySharedTagsNew fuel s4 p4 ctx sharedTags otherTags extV recursionVar
termination_by structural x => x

/-- The `unify_shared_tags_new` function of `unify.rs`. -/
def unifySharedTagsNew : Nat → Subs → Pool → Context →
    List (TagName × (List Var × List Var)) → OtherTags2 → Var → Rec → Option UnifyResult
  | 0, _, _, _, _, _, _, _ => none
  | fuel + 1, s, p, ctx, sharedTags, otherTags, extv, recursionVar =>
    match sharedTagsGo (fun s2 p2 a b => unifyPool fuel s2 p2 a b ctx.mode)
        (fun s2 v => maybeMarkTagUnionRecursive (fuel + 1) s2 v)
        recursionVar.isRight sharedTags [] s p with
    | none => none
    | some (matchingTags, s1, p1) =>
      if sharedTags.length == matchingTags.length then
        let (extFields, newExtVar) := gatherTags (fuel + 1) s1 [] extv
        let newTags :=
          match otherTags with
          | .empty =>
            if extFields.isEmpty then matchingTags
            else mergeSortedBy TagName.cmp matchingTags extFields
          | .union other1 other2 =>
            let a := mergeSortedBy TagName.cmp matchingTags extFields
            let b := mergeSortedBy TagName.cmp a other1
            mergeSortedBy TagName.cmp b other2
        let (o, s2) := unifySharedTagsMergeNew s1 ctx newTags newExtVar recursionVar
        some (o, s2, p1)
      else some (mismatchOutcome, s1, p1)
termination_by structural x => x

/-- The `unify_function_or_tag_union_and_func` function of `unify.rs`. -/
def unifyFunctionOrTagUnionAndFunc : Nat → Subs → Pool → Context →
    TagName → Symbol → Var → List Var → Var → Var → Bool → Option UnifyResult
  | 0, _, _, _, _, _, _, _, _, _, _ => none
  | fuel + 1, s, p, ctx, tagName, tagSymbol, tagExt, functionArguments,
      functionReturn, functionLambdaSet, left =>
    let unionTags : UnionTags := [(tagName, functionArguments)]
    let (newTagUnionVar, s1, p1) := fresh s p ctx (.structure (.tagUnion unionTags tagExt))
    let step1 :=
      if left then unifyPool fuel s1 p1 newTagUnionVar functionReturn ctx.mode
      else unifyPool fuel s1 p1 functionReturn newTagUnionVar ctx.mode
    match step1 with
    | none => none
    | some (o1, s2, p2) =>
      let closTagName := TagName.closureTag tagSymbol
      let unionTags2 : UnionTags := [(closTagName, [])]
      let (lambdaSetExt, s3) := s2.freshUnnamedFlexVar
      let (tagLambdaSet, s4, p3) := register s3 p2
        { content := .structure (.tagUnion unionTags2 lambdaSetExt),
          rank := min ctx.firstDesc.rank ctx.secondDesc.rank,
          mark := 0, copy := none }
      let step2 :=
        if left then unifyPool fuel s4 p3 tagLambdaSet functionLambdaSet ctx.mode
        else unifyPool fuel s4 p3 functionLambdaSet tagLambdaSet ctx.mode
      match step2 with
      | none => none
      | some (o2, s5, p4) =>
        let o := o1.union o2
        if o.mismatches.isEmpty then
          let d := if left then s5.get ctx.second else s5.get ctx.first
          some (o, s5.union ctx.first ctx.second d, p4)
        else some (o, s5, p4)

termination_by structural x => x
end

/-- The top-level `unify` function of `unify.rs`: run `unify_pool` with a
fresh pool; on success return `Success`, otherwise render both sides,
union the two variables to `Error`, and return `Failure` (or `BadType`
when rendering reported problems). -/
def unify (fuel : Nat) (s : Subs) (v1 v2 : Var) (m : Mode) : Option (Unified × Subs) :=
  match unifyPool fuel s [] v1 v2 m with
  | none => none
  | some (o, s1, vars) =>
    if o.mismatches.isEmpty then some (.success vars o.mustImplement, s1)
    else
      let errorContext :=
        if o.mismatches.contains .typeNotInRange then ErrorTypeContext.expandRanges
        else ErrorTypeContext.noContext
      let (type1, problems1) := varToErrorTypeContextual s1 v1 errorContext
      let (type2, problems2) := varToErrorTypeContextual s1 v2 errorContext
      let problems := problems1 ++ problems2
      let s2 := s1.union v1 v2 (descriptorOf .error)
      match problems with
      | p0 :: _ => some (.badType vars p0, s2)
      | [] =>
        let dni := o.mismatches.filterMap fun mm =>
          match mm with
          | .doesNotImplementAbility v ab =>
            some ((varToErrorTypeContextual s2 v errorContext).1, ab)
          | _ => none
        some (.failure vars type1 type2 dni, s2)

/-- Run `unify` twice on the same pair, threading the store, as in the
idempotence property of the spec (section 8). -/
def unifyTwice (fuel1 fuel2 : Nat) (s : Subs) (v1 v2 : Var) (m : Mode) :
    Option (Unified × Subs) :=
  match unify fuel1 s v1 v2 m with
  | none => none
  | some (_, s1) => unify fuel2 s1 v1 v2 m

/-- Modelled from the spec, for comparison only: `unify_zip_slices` as it
would look if it propagated an ambient mode into the pairwise argument
unifications. -/
def unifyZipSlicesModed : Nat → Subs → Pool → List Var → List Var → Mode → Option UnifyResult
  | 0, _, _, _, _, _ => none
  | fuel + 1, s, p, left, right, m =>
    zipGoModed (fun s2 p2 a b m2 => unifyPool fuel s2 p2 a b m2) m (left.zip right) emptyOutcome s p

/-- One speculative attempt of `check_valid_range` fails: the candidate
unifies with a non-empty mismatch list. -/
def attemptFails (f : Nat) (s : Subs) (p : Pool) (v : Var) (m : Mode) (c : Var) : Prop :=
  (unifyPool f s p v c m.withRigidAsFlex).map (fun r => r.1.mismatches.isEmpty) = some false

/-- One speculative attempt of `check_valid_range` succeeds cleanly. -/
def attemptSucceeds (f : Nat) (s : Subs) (p : Pool) (v : Var) (m : Mode) (c : Var) : Prop :=
  (unifyPool f s p v c m.withRigidAsFlex).map (fun r => r.1.mismatches.isEmpty) = some true

/-- Field kinds, abstracted from their payload variable. -/
inductive KindTag where
  | demandedK
  | requiredK
  | optionalK
deriving DecidableEq, BEq

/-- Build a record field of the given kind over a variable. -/
def mkField : KindTag → Var → RecordField Var
  | .demandedK, v => .demanded v
  | .requiredK, v => .required v
  | .optionalK, v => .optional v

/-- Modelled from the spec (section 4.2.4): the shared-field combination
lattice; `none` is the demanded-optional error case. -/
def latticeSpec : KindTag → KindTag → Option KindTag
  | .demandedK, .optionalK => none
  | .optionalK, .demandedK => none
  | .demandedK, _ => some .demandedK
  | _, .demandedK => some .demandedK
  | .requiredK, _ => some .requiredK
  | _, .requiredK => some .requiredK
  | .optionalK, .optionalK => some .optionalK

/-- Store with a cyclic structural alias chain: variable 0 is an alias
whose real var is 1, variable 1 is an alias whose real var is 0, and
variable 2 is a rigid variable. -/
def sCyc : Subs := mkSubs 3 fun v =>
  if v == 0 then .alias 10 [] 1 .structural
  else if v == 1 then .alias 11 [] 0 .structural
  else if v == 2 then .rigidVar 0
  else .flexVar none

/-- Store for the alias-versus-rigid success path: variable 0 is a
structural alias expanding to the flex variable 1, variable 2 is rigid. -/
def sAliasRigid : Subs := mkSubs 3 fun v =>
  if v == 0 then .alias 5 [] 1 .structural
  else if v == 1 then .flexVar none
  else if v == 2 then .rigidVar 7
  else .flexVar none

/-- Store pairing a rigid variable (0) with a flex-able variable (1). -/
def sRigidFlexAble : Subs := mkSubs 2 fun v =>
  if v == 0 then .rigidVar 3
  else if v == 1 then .flexAbleVar none 7
  else .flexVar none

/-- Store with two distinct rigid variables, which can never unify. -/
def sTwoRigids : Subs := mkSubs 2 fun v =>
  if v == 0 then .rigidVar 0
  else if v == 1 then .rigidVar 1
  else .flexVar none

/-- Store with two unnamed flex variables. -/
def sFlexPair : Subs := mkSubs 2 fun _ => .flexVar none

/-- Store for a range check: variable 0 is the empty record, candidate 1
is the empty tag union (inadmissible), candidate 2 is the empty record
(admissible). -/
def sRange : Subs := mkSubs 3 fun v =>
  if v == 0 then .structure .emptyRecord
  else if v == 1 then .structure .emptyTagUnion
  else if v == 2 then .structure .emptyRecord
  else .flexVar none

/-- Store for the shared-field lattice witness: variable 0 is the shared
field variable, variable 1 is a closed record tail. -/
def sC7W : Subs := mkSubs 2 fun v =>
  if v == 1 then .structure .emptyRecord else .flexVar none

/-- A concrete dispatch context over two flex descriptors. -/
def ctxW : Context :=
  { first := 2, firstDesc := descriptorOf (.flexVar none),
    second := 3, secondDesc := descriptorOf (.flexVar none), mode := Mode.eqMode }

end RocUnify

namespace RocMono

/-- Symbols of the monomorphized IR; dense integer handles per the spec. -/
abbrev Symbol := Nat

/-- Join point identifiers; dense integer handles per the spec. -/
abbrev JoinPointId := Nat

/-- Layouts are carried through the tail-call pass untouched, so they
are modelled as opaque numbers. -/
abbrev Layout := Nat

/-- Modelled from the spec (section 4.3; `crate::ir::CallType` is outside
the sources): the pass only distinguishes `ByName` calls. -/
inductive CallType where
  | byName (name : Symbol)
  | notByName (k : Nat)
deriving DecidableEq, BEq

/-- Modelled from the spec: a call expression with its call type and
argument symbols. -/
structure CallExpr where
  callType : CallType
  arguments : List Symbol
deriving DecidableEq, BEq

/-- Modelled from the spec: expressions are calls or anything else. -/
inductive Expr where
  | call (c : CallExpr)
  | otherExpr (k : Nat)
deriving DecidableEq, BEq

/-- Join-point parameters (`crate::ir::Param`). -/
structure Param where
  symbol : Symbol
  layout : Layout
  borrow : Bool
deriving DecidableEq, BEq

mutual

/-- Modelled from the spec (section 2, IR): the statement tree of the
monomorphized IR, with the fields the tail-call pass inspects. -/
inductive Stmt where
  | letS (symbol : Symbol) (e : Expr) (layout : Layout) (cont : Stmt)
  | invoke (symbol : Symbol) (call : CallExpr) (layout : Layout) (pass : Stmt) (fail : Stmt)
  | switch (condSymbol : Symbol) (condLayout : Layout) (branches : Branches)
      (defaultInfo : Nat) (defaultBranch : Stmt) (retLayout : Layout)
  | join (id : JoinPointId) (parameters : List Param) (remainder : Stmt) (continuation : Stmt)
  | jump (id : JoinPointId) (args : List Symbol)
  | ret (symbol : Symbol)
  | rethrow
  | refcounting (modify : Nat) (cont : Stmt)
  | runtimeError (msg : Nat)

/-- Branch lists of a `Switch` statement. -/
inductive Branches where
  | nil
  | cons (label : Nat) (info : Nat) (branch : Stmt) (rest : Branches)

end

/-- The guard of the `Let` tail-call site in `insert_jumps`:
`Let(x, Call(ByName needle, args), _, Ret(x))`. -/
def siteLet (needle x : Symbol) (e : Expr) (cont : Stmt) : Bool :=
  match e, cont with
  | .call c, .ret r =>
    (match c.callType with
     | .byName f => needle == f && x == r
     | .notByName _ => false)
  | _, _ => false

/-- The guard of the `Invoke` tail-call site in `insert_jumps`:
`Invoke(x, Call(ByName needle, args), pass: Ret(x), ..)`; the `fail`
branch is not examined (it is only debug-asserted to be `Rethrow`). -/
def siteInvoke (needle x : Symbol) (c : CallExpr) (pass : Stmt) : Bool :=
  (match c.callType with
   | .byName f => needle == f
   | .notByName _ => false) &&
  (match pass with
   | .ret r => x == r
   | _ => false)

/-- The call arguments of a `Let` site expression. -/
def siteArgs (e : Expr) : List Symbol :=
  match e with
  | .call c => c.arguments
  | .otherExpr _ => []

mutual

/-- The `insert_jumps` function of `tail_recursion.rs`: rewrite tail
calls of `needle` into jumps to `goalId`, returning `some` only when a
descendant changed (release semantics: the `debug_assert` on the
`Invoke` fail branch is a no-op). -/
def insertJumps (goalId : JoinPointId) (needle : Symbol) : Stmt → Option Stmt
  | .letS symbol e layout cont =>
    if siteLet needle symbol e cont then some (.jump goalId (siteArgs e))
    else
      match insertJumps goalId needle cont with
      | some cont2 => some (.letS symbol e layout cont2)
      | none => none
  | .invoke symbol call layout pass fail =>
    if siteInvoke needle symbol call pass then some (.jump goalId call.arguments)
    else
      let optPass := insertJumps goalId needle pass
      let optFail := insertJumps goalId needle fail
      if optPass.isSome || optFail.isSome then
        some (.invoke symbol call layout (optPass.getD pass) (optFail.getD fail))
      else none
  | .join id parameters remainder continuation =>
    let optRemainder := insertJumps goalId needle remainder
    let optContinuation := insertJumps goalId needle continuation
    if optRemainder.isSome || optContinuation.isSome then
      some (.join id parameters (optRemainder.getD remainder) (optContinuation.getD continuation))
    else none
  | .switch condSymbol condLayout branches defaultInfo defaultBranch retLayout =>
    let optDefault := insertJumps goalId needle defaultBranch
    let res := insertJumpsBranches goalId needle branches
    if optDefault.isSome || res.2 then
      some (.switch condSymbol condLayout res.1 defaultInfo
        (optDefault.getD defaultBranch) retLayout)
    else none
  | .refcounting modify cont =>
    match insertJumps goalId needle cont with
    | some cont2 => some (.refcounting modify cont2)
    | none => none
  | .rethrow => none
  | .ret _ => none
  | .jump _ _ => none
  | .runtimeError _ => none

/-- Branch traversal of `insert_jumps` for `Switch`: rewritten branches
together with the `did_change` flag. -/
def insertJumpsBranches (goalId : JoinPointId) (needle : Symbol) : Branches → Branches × Bool
  | .nil => (.nil, false)
  | .cons label info branch rest =>
    let res := insertJumpsBranches goalId needle rest
    match insertJumps goalId needle branch with
    | some branch2 => (.cons label info branch2 res.1, true)
    | none => (.cons label info branch res.1, res.2)

end

/-- The `make_tail_recursive` function of `tail_recursion.rs`. -/
def makeTailRecursive (id : JoinPointId) (needle : Symbol) (stmt : Stmt)
    (args : List (Layout × Symbol)) : Stmt :=
  match insertJumps id needle stmt with
  | none => stmt
  | some newBody =>
    let params := args.map fun t => Param.mk t.2 t.1 true
    let jumpArgs := args.map fun t => t.2
    Stmt.join id params (Stmt.jump id jumpArgs) newBody

mutual

/-- Modelled from the spec (section 4.3, amended to the code: the
`Invoke` site does not require `fail = Rethrow`): whether the statement
contains a recognizable tail-call site for `needle`. -/
def specHasSite (needle : Symbol) : Stmt → Bool
  | .letS x e _ cont => siteLet needle x e cont || specHasSite needle cont
  | .invoke x c _ pass fail =>
    siteInvoke needle x c pass || specHasSite needle pass || specHasSite needle fail
  | .join _ _ remainder continuation =>
    specHasSite needle remainder || specHasSite needle continuation
  | .switch _ _ branches _ defaultBranch _ =>
    specHasSiteBranches needle branches || specHasSite needle defaultBranch
  | .refcounting _ cont => specHasSite needle cont
  | .jump _ _ => false
  | .ret _ => false
  | .rethrow => false
  | .runtimeError _ => false

/-- Site search over switch branches. -/
def specHasSiteBranches (needle : Symbol) : Branches → Bool
  | .nil => false
  | .cons _ _ branch rest => specHasSite needle branch || specHasSiteBranches needle rest

end

mutual

/-- Modelled from the spec (section 4.3, amended as for `specHasSite`):
rewrite every recognizable tail-call site into `Jump(goalId, args)` and
leave everything else in place. -/
def specRewrite (goalId : JoinPointId) (needle : Symbol) : Stmt → Stmt
  | .letS x e l cont =>
    if siteLet needle x e cont then .jump goalId (siteArgs e)
    else .letS x e l (specRewrite goalId needle cont)
  | .invoke x c l pass fail =>
    if siteInvoke needle x c pass then .jump goalId c.arguments
    else .invoke x c l (specRewrite goalId needle pass) (specRewrite goalId needle fail)
  | .join id ps remainder continuation =>
    .join id ps (specRewrite goalId needle remainder) (specRewrite goalId needle continuation)
  | .switch cs cl branches di db rl =>
    .switch cs cl (specRewriteBranches goalId needle branches) di (specRewrite goalId needle db) rl
  | .refcounting m cont => .refcounting m (specRewrite goalId needle cont)
  | .jump i a => .jump i a
  | .ret x => .ret x
  | .rethrow => .rethrow
  | .runtimeError e => .runtimeError e

/-- Site rewriting over switch branches. -/
def specRewriteBranches (goalId : JoinPointId) (needle : Symbol) : Branches → Branches
  | .nil => .nil
  | .cons label info branch rest =>
    .cons label info (specRewrite goalId needle branch) (specRewriteBranches goalId needle rest)

end

/-- An `Invoke` statement whose `fail` branch is a `RuntimeError`, not a
`Rethrow`: by the spec it is not a recognizable tail-call site. -/
def invokeBadFail : Stmt :=
  .invoke 1 { callType := .byName 0, arguments := [] } 0 (.ret 1) (.runtimeError 0)

end RocMono

namespace RocAlias

/-- Little-endian bytes of a 64-bit value (`u64::to_ne_bytes` on the
little-endian targets the compiler supports). -/
def u64ToLeBytes (x : Nat) : List Nat :=
  [x % 256, x / 256 % 256, x / 256 ^ 2 % 256, x / 256 ^ 3 % 256,
   x / 256 ^ 4 % 256, x / 256 ^ 5 % 256, x / 256 ^ 6 % 256, x / 256 ^ 7 % 256]

/-- The first half of `func_name_bytes_help`: the byte array `[0u8; SIZE]`
with `SIZE = 16`, filled by zipping the symbol bytes chained with the
layout-hash bytes (8 + 8 bytes exactly fill it).  The 64-bit layout hash
itself comes from `DefaultHasher` over the argument layouts and the
return layout, and is passed in here as a value. -/
def funcNameBytesBase (symbol layoutHash : Nat) : List Nat :=
  u64ToLeBytes symbol ++ u64ToLeBytes layoutHash

/-- Bounds-checked byte store, `bytes[i] = c`; `none` models the Rust
index-out-of-bounds panic. -/
def setByteAt : List Nat → Nat → Nat → Option (List Nat)
  | [], _, _ => none
  | _ :: rest, 0, c => some (c :: rest)
  | b :: rest, i + 1, c => (setByteAt rest i c).map (fun l => b :: l)

/-- The debug block of `func_name_bytes_help`: write the characters of
the symbol's debug name at positions `25 + i` of the name bytes. -/
def writeDebugChars : List Nat → Nat → List Nat → Option (List Nat)
  | bytes, _, [] => some bytes
  | bytes, i, c :: cs =>
    match setByteAt bytes (25 + i) c with
    | none => none
    | some bytes2 => writeDebugChars bytes2 (i + 1) cs

/-- The `func_name_bytes_help` function of `alias_analysis/src/lib.rs`:
16 bytes of symbol and layout hash, plus (in debug mode) up to 25
characters of the symbol's debug name written at offset 25. -/
def funcNameBytesHelp (debugMode : Bool) (symbol layoutHash : Nat)
    (debugName : List Nat) : Option (List Nat) :=
  let nameBytes := funcNameBytesBase symbol layoutHash
  if debugMode then writeDebugChars nameBytes 0 (debugName.take 25)
  else some nameBytes

/-- The `LIST_CELL_INDEX` constant of `alias_analysis/src/lib.rs`. -/
def LIST_CELL_INDEX : Nat := 0

/-- The `LIST_BAG_INDEX` constant of `alias_analysis/src/lib.rs`. -/
def LIST_BAG_INDEX : Nat := 1

/-- Modelled from the spec (section 4.4; the builder lives in the
external `morphic_lib` crate): the analysis-IR operations the
`ListReplaceUnsafe` lowering emits. -/
inductive MorphOp where
  | getTupleField (tup : Nat) (idx : Nat)
  | touch (cell : Nat)
  | update (umv : Nat) (cell : Nat)
  | bagInsert (bag : Nat) (x : Nat)
  | bagGet (bag : Nat)
  | newHeapCell
  | makeTuple (elems : List Nat)
deriving DecidableEq, BEq

/-- Modelled from the spec: builder state, a counter of value ids and the
ordered list of emitted operations tagged with their result ids. -/
structure BuilderState where
  nextId : Nat
  ops : List (Nat × MorphOp)
deriving DecidableEq, BEq

/-- Modelled from the spec: emit one operation, returning its value id. -/
def emit (st : BuilderState) (op : MorphOp) : Nat × BuilderState :=
  (st.nextId, { nextId := st.nextId + 1, ops := st.ops ++ [(st.nextId, op)] })

/-- The `with_new_heap_cell` helper of `alias_analysis/src/lib.rs`: a
fresh heap cell tupled with the given value. -/
def withNewHeapCell (st : BuilderState) (value : Nat) : Nat × BuilderState :=
  let (cell, st1) := emit st .newHeapCell
  emit st1 (.makeTuple [cell, value])

/-- The `ListReplaceUnsafe` arm of `lowlevel_spec` in
`alias_analysis/src/lib.rs`: read the bag and the cell of the list,
touch the cell, update it under the update-mode variable, insert the new
element into the bag, read the old element back, and return the tuple of
the new list and the old value. -/
def listReplaceUnsafeSpec (st : BuilderState) (list toInsert umv : Nat) :
    Nat × BuilderState :=
  let (bag, st1) := emit st (.getTupleField list LIST_BAG_INDEX)
  let (cell, st2) := emit st1 (.getTupleField list LIST_CELL_INDEX)
  let (_unit1, st3) := emit st2 (.touch cell)
  let (_unit2, st4) := emit st3 (.update umv cell)
  let (_ins, st5) := emit st4 (.bagInsert bag toInsert)
  let (oldValue, st6) := emit st5 (.bagGet bag)
  let (newList, st7) := withNewHeapCell st6 bag
  emit st7 (.makeTuple [newList, oldValue])

end RocAlias

namespace RocUnify

/-! ## Store lemmas -/

theorem Subs.equivalent_refl (s : Subs) (v : Var) : s.equivalent v v = true := by
  simp [Subs.equivalent]

theorem Subs.union_equivalent (s : Subs) (v1 v2 : Var) (d : Descriptor) :
    (s.union v1 v2 d).equivalent v1 v2 = true := by
  simp [Subs.union, Subs.equivalent]

theorem Subs.union_get_left (s : Subs) (v1 v2 : Var) (d : Descriptor) :
    (s.union v1 v2 d).get v1 = d := by
  simp [Subs.union, Subs.get]

theorem Subs.union_get_right (s : Subs) (v1 v2 : Var) (d : Descriptor) :
    (s.union v1 v2 d).get v2 = d := by
  by_cases h : s.rep v2 = s.rep v1
  · simp [Subs.union, Subs.get, h]
  · simp [Subs.union, Subs.get, h]

theorem Subs.equivalent_get_eq (s : Subs) (v1 v2 : Var)
    (h : s.equivalent v1 v2 = true) : s.get v1 = s.get v2 := by
  have hr : s.rep v1 = s.rep v2 := by
    simpa [Subs.equivalent] using h
  simp [Subs.get, hr]

theorem Subs.equivalent_comm (s : Subs) (v1 v2 : Var) :
    s.equivalent v1 v2 = s.equivalent v2 v1 := by
  simp [Subs.equivalent, Nat.beq_eq, eq_comm]

/-- `set` rewrites a root descriptor without moving any representative,
so it preserves every equivalence. -/
theorem Subs.set_equivalent_eq (s : Subs) (x : Var) (d : Descriptor) (a b : Var) :
    (s.set x d).equivalent a b = s.equivalent a b := rfl

/-- `fresh` allocates a new class without moving any representative, so
it preserves every equivalence. -/
theorem Subs.fresh_equivalent_eq (s : Subs) (d : Descriptor) (a b : Var) :
    ((s.fresh d).2).equivalent a b = s.equivalent a b := rfl

end RocUnify

namespace RocUnify

/-! ## Unifier lemmas -/

/-- Unifying a variable with itself is a no-op with an empty outcome. -/
theorem unifyPool_sameVar : ∀ (g : Nat) (s : Subs) (p : Pool) (v : Var) (m : Mode),
    unifyPool (g + 1) s p v v m = some (emptyOutcome, s, p) := by
  intro g s p v m
  simp [unifyPool, Subs.equivalent_refl]

/-- A failing top-level `unify` run has unioned the two variables into a
single class whose content is `Error`. -/
theorem unify_failing_equivalent : ∀ fuel s v1 v2 m u s1,
    unify fuel s v1 v2 m = some (u, s1) → u.isFailing = true →
    s1.equivalent v1 v2 = true ∧ (s1.get v1).content = .error := by
  intro fuel s v1 v2 m u s1 h hf
  cases hp : unifyPool fuel s [] v1 v2 m with
  | none => rw [unify, hp] at h; exact nomatch h
  | some r =>
    obtain ⟨o, s0, vars⟩ := r
    rw [unify, hp] at h
    by_cases hm : o.mismatches.isEmpty
    · simp [hm] at h
      rw [← h.1] at hf
      exact nomatch hf
    · simp [hm, varToErrorTypeContextual] at h
      have hs : s1 = s0.union v1 v2 (descriptorOf .error) := h.2.symm
      subst hs
      exact ⟨Subs.union_equivalent _ _ _ _, by simp [Subs.union_get_left, descriptorOf]⟩

/-- On the store `sCyc`, unification of the cyclic alias 0 with the
rigid variable 2 consumes any amount of fuel without returning: the
dispatch bounces between the two aliases without ever changing the
store. -/
theorem cycNone : ∀ n : Nat, ∀ p : Pool,
    unifyPool n sCyc p 0 2 Mode.eqMode = none ∧
    unifyPool n sCyc p 1 2 Mode.eqMode = none := by
  intro n
  induction n using Nat.strong_induction_on with
  | _ n ih =>
    intro p
    match n with
    | 0 => exact ⟨rfl, rfl⟩
    | 1 => exact ⟨rfl, rfl⟩
    | 2 => exact ⟨rfl, rfl⟩
    | (k + 3) =>
      have h1 : unifyPool (k + 3) sCyc p 0 2 Mode.eqMode
          = unifyPool k sCyc p 1 2 Mode.eqMode := rfl
      have h2 : unifyPool (k + 3) sCyc p 1 2 Mode.eqMode
          = unifyPool k sCyc p 0 2 Mode.eqMode := rfl
      have hk := ih k (by omega) p
      exact ⟨h1.trans hk.2, h2.trans hk.1⟩

/-- The `zipGoEQ` loop of `unify_zip_slices` agrees with the
mode-propagating loop instantiated at `EQ`. -/
theorem zipGoEQ_eq_moded : ∀ (up : Up) (pairs : List (Var × Var)) (acc : Outcome)
    (s : Subs) (p : Pool),
    zipGoEQ up pairs acc s p = zipGoModed up Mode.eqMode pairs acc s p := by
  intro up pairs
  induction pairs with
  | nil => intro acc s p; rfl
  | cons hd tl ih =>
    intro acc s p
    obtain ⟨l, r⟩ := hd
    cases hup : up s p l r Mode.eqMode with
    | none => simp [zipGoEQ, zipGoModed, hup]
    | some r2 =>
      obtain ⟨o, s1, p1⟩ := r2
      simp [zipGoEQ, zipGoModed, hup]
      exact ih _ _ _

/-- In `check_valid_range`, failed non-final attempts roll back and a
later clean attempt returns the empty outcome with the initial store. -/
theorem checkValidRangeGo_success : ∀ (f : Nat) (s : Subs) (p : Pool) (v : Var) (m : Mode)
    (pre : List Var) (c : Var) (post : List Var),
    (∀ d ∈ pre, attemptFails f s p v m d) →
    attemptSucceeds f s p v m c →
    checkValidRangeGo (fun s2 p2 a b m2 => unifyPool f s2 p2 a b m2) v m s p (pre ++ c :: post) =
      some (emptyOutcome, s, p) := by
  intro f s p v m pre
  induction pre with
  | nil =>
    intro c post _ hsucc
    cases ha : unifyPool f s p v c m.withRigidAsFlex with
    | none => rw [attemptSucceeds, ha] at hsucc; exact nomatch hsucc
    | some r =>
      obtain ⟨o, s1, p1⟩ := r
      rw [attemptSucceeds, ha] at hsucc
      have hm : o.mismatches.isEmpty = true := Option.some.inj hsucc
      cases post with
      | nil => simp [checkValidRangeGo, ha, hm]
      | cons c2 rest => simp [checkValidRangeGo, ha, hm]
  | cons d pre' ih =>
    intro c post hfails hsucc
    have hd : attemptFails f s p v m d := hfails d (by simp)
    cases ha : unifyPool f s p v d m.withRigidAsFlex with
    | none => rw [attemptFails, ha] at hd; exact nomatch hd
    | some r =>
      obtain ⟨o, s1, p1⟩ := r
      rw [attemptFails, ha] at hd
      have hm : o.mismatches.isEmpty = false := Option.some.inj hd
      cases hx : pre' ++ c :: post with
      | nil => exact absurd hx (by simp)
      | cons e tail =>
        have step : checkValidRangeGo (fun s2 p2 a b m2 => unifyPool f s2 p2 a b m2) v m s p
            (d :: pre' ++ c :: post) =
            checkValidRangeGo (fun s2 p2 a b m2 => unifyPool f s2 p2 a b m2) v m s p
            (pre' ++ c :: post) := by
          rw [List.cons_append, hx]
          simp [checkValidRangeGo, ha, hm]
        rw [List.cons_append] at step ⊢
        rw [step]
        exact ih c post (fun d2 hd2 => hfails d2 (by simp [hd2])) hsucc

/-- In `check_valid_range`, when every attempt fails the final attempt
is committed and the outcome is the single `TypeNotInRange` mismatch. -/
theorem checkValidRangeGo_allFail : ∀ (f : Nat) (s : Subs) (p : Pool) (v : Var) (m : Mode)
    (init : List Var) (last : Var),
    (∀ d ∈ init ++ [last], attemptFails f s p v m d) →
    checkValidRangeGo (fun s2 p2 a b m2 => unifyPool f s2 p2 a b m2) v m s p (init ++ [last]) =
      (unifyPool f s p v last m.withRigidAsFlex).map (fun r => (typeNotInRangeOutcome, r.2)) := by
  intro f s p v m init
  induction init with
  | nil =>
    intro last hfails
    have hd : attemptFails f s p v m last := hfails last (by simp)
    cases ha : unifyPool f s p v last m.withRigidAsFlex with
    | none => rw [attemptFails, ha] at hd; exact nomatch hd
    | some r =>
      obtain ⟨o, s1, p1⟩ := r
      rw [attemptFails, ha] at hd
      have hm : o.mismatches.isEmpty = false := Option.some.inj hd
      simp [checkValidRangeGo, ha, hm]
  | cons d init' ih =>
    intro last hfails
    have hd : attemptFails f s p v m d := hfails d (by simp)
    cases ha : unifyPool f s p v d m.withRigidAsFlex with
    | none => rw [attemptFails, ha] at hd; exact nomatch hd
    | some r =>
      obtain ⟨o, s1, p1⟩ := r
      rw [attemptFails, ha] at hd
      have hm : o.mismatches.isEmpty = false := Option.some.inj hd
      cases hx : init' ++ [last] with
      | nil => exact absurd hx (by simp)
      | cons e tail =>
        have step : checkValidRangeGo (fun s2 p2 a b m2 => unifyPool f s2 p2 a b m2) v m s p
            (d :: init' ++ [last]) =
            checkValidRangeGo (fun s2 p2 a b m2 => unifyPool f s2 p2 a b m2) v m s p
            (init' ++ [last]) := by
          rw [List.cons_append, hx]
          simp [checkValidRangeGo, ha, hm]
        rw [List.cons_append] at step ⊢
        rw [step]
        exact ih last (fun d2 hd2 => hfails d2 (by simp [hd2]))

/-- Every success exit of `unify_flex` ends in a `merge`, leaving the
two context variables in one class. -/
theorem unifyFlex_success_equiv : ∀ (s : Subs) (ctx : Context) (optName : Option Name)
    (bound : Option Symbol) (other : Content),
    (unifyFlex s ctx optName bound other).1.mismatches.isEmpty = true →
    (unifyFlex s ctx optName bound other).2.equivalent ctx.first ctx.second = true := by
  intro s ctx optName bound other h
  rcases other with (_ | n2) | ⟨on2, ab⟩ | n2 | ⟨n2, ab⟩ | ⟨on2, sv⟩ | ft | ⟨sy, ar, rv, k⟩ | ⟨rv, rs⟩ | _ <;>
    rcases bound with _ | b <;>
    simp_all [unifyFlex, merge, Subs.union_equivalent, notAbleOutcome, emptyOutcome] <;>
    split_ifs at h ⊢ <;>
    simp_all [Subs.union_equivalent, notAbleOutcome]

/-- Every success exit of `unify_rigid` ends in a `merge`, leaving the
two context variables in one class. -/
theorem unifyRigid_success_equiv : ∀ (s : Subs) (ctx : Context) (name : Name)
    (bound : Option Symbol) (other : Content),
    (unifyRigid s ctx name bound other).1.mismatches.isEmpty = true →
    (unifyRigid s ctx name bound other).2.equivalent ctx.first ctx.second = true := by
  intro s ctx name bound other h
  rcases other with (_ | n2) | ⟨on2, ab⟩ | n2 | ⟨n2, ab⟩ | ⟨on2, sv⟩ | ft | ⟨sy, ar, rv, _ | _⟩ | ⟨rv, rs⟩ | _ <;>
    rcases bound with _ | b <;>
    simp_all [unifyRigid, merge, Subs.union_equivalent, notAbleOutcome, mismatchOutcome, emptyOutcome] <;>
    first
      | rfl
      | (split_ifs at h ⊢ <;>
          simp_all [Subs.union_equivalent, notAbleOutcome, mismatchOutcome, merge, emptyOutcome])

/-- Every success exit of the `check_valid_range` loop commits nothing:
it returns the empty outcome together with the entry store and pool. -/
theorem checkValidRangeGo_success_exit (up : Up) (v : Var) (m : Mode) :
    ∀ (range : List Var) (s : Subs) (p : Pool) (o : Outcome) (s2 : Subs) (p2 : Pool),
      checkValidRangeGo up v m s p range = some (o, s2, p2) →
      o.mismatches.isEmpty = true →
      o = emptyOutcome ∧ s2 = s ∧ p2 = p := by
  intro range
  induction range with
  | nil =>
    intro s p o s2 p2 h he
    simp only [checkValidRangeGo, Option.some.injEq, Prod.mk.injEq] at h
    obtain ⟨ho, hs, hp⟩ := h
    rw [← ho] at he
    exact absurd he (by decide)
  | cons c rest ih =>
    intro s p o s2 p2 h he
    cases rest with
    | nil =>
      simp only [checkValidRangeGo] at h
      cases hup : up s p v c m.withRigidAsFlex with
      | none => rw [hup] at h; exact nomatch h
      | some r =>
        obtain ⟨o1, s1, p1⟩ := r
        rw [hup] at h
        by_cases hm : o1.mismatches.isEmpty = true
        · simp only [hm, if_true, Option.some.injEq, Prod.mk.injEq] at h
          obtain ⟨ho, hs, hp⟩ := h
          exact ⟨ho.symm, hs.symm, hp.symm⟩
        · have hm2 : o1.mismatches.isEmpty = false := by simpa using hm
          simp only [hm2, if_false, Bool.false_eq_true, Option.some.injEq, Prod.mk.injEq] at h
          obtain ⟨ho, hs, hp⟩ := h
          rw [← ho] at he
          exact absurd he (by decide)
    | cons c2 rest2 =>
      simp only [checkValidRangeGo] at h
      cases hup : up s p v c m.withRigidAsFlex with
      | none => rw [hup] at h; exact nomatch h
      | some r =>
        obtain ⟨o1, s1, p1⟩ := r
        rw [hup] at h
        by_cases hm : o1.mismatches.isEmpty = true
        · simp only [hm, if_true, Option.some.injEq, Prod.mk.injEq] at h
          obtain ⟨ho, hs, hp⟩ := h
          exact ⟨ho.symm, hs.symm, hp.symm⟩
        · have hm2 : o1.mismatches.isEmpty = false := by simpa using hm
          simp only [hm2, if_false, Bool.false_eq_true] at h
          exact ih s p o s2 p2 h he

/-! ## Claim theorems -/

/-- C1 (counterexample): unification is not total.  On the store `sCyc`,
whose variable 0 is a structural alias chain that cycles back to itself,
`unify(0, 2, EQ)` never returns: for every fuel bound the embedded
unifier runs out of fuel without having produced a result, because the
alias-versus-rigid path recurses into the alias real var without ever
changing the store. -/
theorem c1_unify_diverges_on_cyclic_aliases :
    ¬ ∃ (n : Nat) (r : Unified × Subs), unify n sCyc 0 2 Mode.eqMode = some r := by
  rintro ⟨n, r, h⟩
  have hn := (cycNone n []).1
  simp [unify, hn] at h

/-- C1 (amended): whenever `unify` returns and the underlying
`unify_pool` outcome contains at least one mismatch, the result is
`Failure` or `BadType`, and the two input variables have been unioned
into one class whose content is `Error`. -/
theorem c1_mismatch_unions_error : ∀ fuel s v1 v2 m,
    (unifyPool fuel s [] v1 v2 m).map (fun r => r.1.mismatches.isEmpty) = some false →
    (unify fuel s v1 v2 m).map
      (fun r => (r.1.isFailing, r.2.equivalent v1 v2, (r.2.get v1).content, (r.2.get v2).content)) =
      some (true, true, Content.error, Content.error) := by
  intro fuel s v1 v2 m h
  cases hp : unifyPool fuel s [] v1 v2 m with
  | none => rw [hp] at h; exact nomatch h
  | some r =>
    obtain ⟨o, s1, vars⟩ := r
    rw [hp] at h
    have hm : o.mismatches.isEmpty = false := Option.some.inj h
    simp [unify, hp, hm, varToErrorTypeContextual, Unified.isFailing,
      Subs.union_equivalent, Subs.union_get_left, Subs.union_get_right, descriptorOf]

/-- C1 (witness): on the two-rigids store the unifier mismatches, and the
resulting store has both variables in one `Error` class. -/
theorem c1_mismatch_unions_error_witness :
    (unify 9 sTwoRigids 0 1 Mode.eqMode).map
      (fun r => (r.1.isFailing, r.2.equivalent 0 1, (r.2.get 0).content, (r.2.get 1).content)) =
      some (true, true, Content.error, Content.error) :=
  c1_mismatch_unions_error 9 sTwoRigids 0 1 Mode.eqMode (by decide)

/-- C2 (counterexample): on the store `sAliasRigid`, `unify(0, 2, EQ)`
dispatches the structural alias 0 against the rigid variable 2, recurses
into the alias real var, and succeeds - yet afterwards variables 0 and 2
are still in different equivalence classes. -/
theorem c2_alias_rigid_success_without_merge :
    (unify 9 sAliasRigid 0 2 Mode.eqMode).map (fun r => (r.1.isSuccess, r.2.equivalent 0 2)) =
      some (true, false) := by decide

/-- C2 (amended): a successful unification leaves the two variables in
one equivalence class with a common root descriptor whenever the
dispatch always ends in a merge: whenever the first variable's content
is `FlexVar`, `FlexAbleVar`, `RigidVar`, `RigidAbleVar` or `Error`, or
the second variable's content is `FlexVar`. -/
theorem c2_merge_ending_success_same_class :
    ∀ (f : Nat) (s : Subs) (p : Pool) (v1 v2 : Var) (m : Mode),
    (alwaysMerges (s.getContent v1) || isFlexContent (s.getContent v2)) = true →
    (unifyPool (f + 3) s p v1 v2 m).map (fun r => r.1.mismatches.isEmpty) = some true →
    ((unifyPool (f + 3) s p v1 v2 m).map (fun r => r.2.1.equivalent v1 v2) = some true) ∧
    ((unifyPool (f + 3) s p v1 v2 m).map (fun r => r.2.1.get v1) =
     (unifyPool (f + 3) s p v1 v2 m).map (fun r => r.2.1.get v2)) := by
  intro f s p v1 v2 m hpath hsucc
  suffices hmain : ∀ o s2 p2, unifyPool (f + 3) s p v1 v2 m = some (o, s2, p2) →
      o.mismatches.isEmpty = true → s2.equivalent v1 v2 = true by
    cases hr : unifyPool (f + 3) s p v1 v2 m with
    | none => rw [hr] at hsucc; exact nomatch hsucc
    | some r =>
      obtain ⟨o, s2, p2⟩ := r
      rw [hr] at hsucc
      have he : o.mismatches.isEmpty = true := Option.some.inj hsucc
      have hequiv := hmain o s2 p2 hr he
      refine ⟨by simp [hequiv], by simp [Subs.equivalent_get_eq s2 v1 v2 hequiv]⟩
  intro o s2 p2 hr he
  by_cases heq : s.equivalent v1 v2 = true
  · have hshort : unifyPool (f + 3) s p v1 v2 m = some (emptyOutcome, s, p) := by
      simp [unifyPool, heq]
    rw [hshort] at hr
    have h2 := Option.some.inj hr
    have hs : s = s2 := congrArg (fun r => r.2.1) h2
    rw [← hs]; exact heq
  · have heq2 : s.equivalent v1 v2 = false := by
      cases hx : s.equivalent v1 v2 with
      | true => exact absurd hx heq
      | false => rfl
    have hstep : unifyPool (f + 3) s p v1 v2 m =
        unifyContext (f + 2) s p ⟨v1, s.get v1, v2, s.get v2, m⟩ := by
      simp [unifyPool, heq2]
    rw [hstep] at hr
    rcases hc1 : (s.get v1).content with on1 | ⟨on1, ab1⟩ | n1 | ⟨n1, ab1⟩ | ⟨on1, sv1⟩ | ft1 | ⟨sy1, ar1, rv1, k1⟩ | ⟨rv1, rs1⟩ | _
    · -- FlexVar on the left: unify_flex, all successes merge.
      have harm : unifyContext (f + 2) s p ⟨v1, s.get v1, v2, s.get v2, m⟩ =
          some ((unifyFlex s ⟨v1, s.get v1, v2, s.get v2, m⟩ on1 none (s.get v2).content).1,
                (unifyFlex s ⟨v1, s.get v1, v2, s.get v2, m⟩ on1 none (s.get v2).content).2, p) := by
        simp [unifyContext, hc1]
      rw [harm] at hr
      have h2 := Option.some.inj hr
      have ho : _ = o := congrArg (fun r => r.1) h2
      have hs : _ = s2 := congrArg (fun r => r.2.1) h2
      rw [← ho] at he; rw [← hs]
      exact unifyFlex_success_equiv s ⟨v1, s.get v1, v2, s.get v2, m⟩ on1 none (s.get v2).content he
    · -- FlexAbleVar on the left.
      have harm : unifyContext (f + 2) s p ⟨v1, s.get v1, v2, s.get v2, m⟩ =
          some ((unifyFlex s ⟨v1, s.get v1, v2, s.get v2, m⟩ on1 (some ab1) (s.get v2).content).1,
                (unifyFlex s ⟨v1, s.get v1, v2, s.get v2, m⟩ on1 (some ab1) (s.get v2).content).2, p) := by
        simp [unifyContext, hc1]
      rw [harm] at hr
      have h2 := Option.some.inj hr
      have ho : _ = o := congrArg (fun r => r.1) h2
      have hs : _ = s2 := congrArg (fun r => r.2.1) h2
      rw [← ho] at he; rw [← hs]
      exact unifyFlex_success_equiv s ⟨v1, s.get v1, v2, s.get v2, m⟩ on1 (some ab1) (s.get v2).content he
    · -- RigidVar on the left: unify_rigid, all successes merge.
      have harm : unifyContext (f + 2) s p ⟨v1, s.get v1, v2, s.get v2, m⟩ =
          some ((unifyRigid s ⟨v1, s.get v1, v2, s.get v2, m⟩ n1 none (s.get v2).content).1,
                (unifyRigid s ⟨v1, s.get v1, v2, s.get v2, m⟩ n1 none (s.get v2).content).2, p) := by
        simp [unifyContext, hc1]
      rw [harm] at hr
      have h2 := Option.some.inj hr
      have ho : _ = o := congrArg (fun r => r.1) h2
      have hs : _ = s2 := congrArg (fun r => r.2.1) h2
      rw [← ho] at he; rw [← hs]
      exact unifyRigid_success_equiv s ⟨v1, s.get v1, v2, s.get v2, m⟩ n1 none (s.get v2).content he
    · -- RigidAbleVar on the left.
      have harm : unifyContext (f + 2) s p ⟨v1, s.get v1, v2, s.get v2, m⟩ =
          some ((unifyRigid s ⟨v1, s.get v1, v2, s.get v2, m⟩ n1 (some ab1) (s.get v2).content).1,
                (unifyRigid s ⟨v1, s.get v1, v2, s.get v2, m⟩ n1 (some ab1) (s.get v2).content).2, p) := by
        simp [unifyContext, hc1]
      rw [harm] at hr
      have h2 := Option.some.inj hr
      have ho : _ = o := congrArg (fun r => r.1) h2
      have hs : _ = s2 := congrArg (fun r => r.2.1) h2
      rw [← ho] at he; rw [← hs]
      exact unifyRigid_success_equiv s ⟨v1, s.get v1, v2, s.get v2, m⟩ n1 (some ab1) (s.get v2).content he
    · -- RecursionVar on the left: merges against FlexVar.
      have hflex : isFlexContent (s.getContent v2) = true := by
        simpa [Subs.getContent, hc1, alwaysMerges] using hpath
      rcases hc2 : (s.get v2).content with on2 | ⟨on2, ab2⟩ | n2 | ⟨n2, ab2⟩ | ⟨on2, sv2⟩ | ft2 | ⟨sy2, ar2, rv2, k2⟩ | ⟨rv2, rs2⟩ | _ <;>
        rw [Subs.getContent, hc2] at hflex
      all_goals simp only [isFlexContent, Bool.false_eq_true] at hflex
      have harm : unifyContext (f + 2) s p ⟨v1, s.get v1, v2, s.get v2, m⟩ =
          some ((merge s ⟨v1, s.get v1, v2, s.get v2, m⟩ (.recursionVar on1 sv1)).1,
                (merge s ⟨v1, s.get v1, v2, s.get v2, m⟩ (.recursionVar on1 sv1)).2, p) := by
        simp [unifyContext, hc1, unifyRecursion, hc2]
      rw [harm] at hr
      have h2 := Option.some.inj hr
      have hs : _ = s2 := congrArg (fun r => r.2.1) h2
      rw [← hs]
      exact Subs.union_equivalent s v1 v2 _
    · -- Structure on the left against FlexVar: merge, then possibly a
      -- present-mode rewrite of the first root (class-preserving).
      have hflex : isFlexContent (s.getContent v2) = true := by
        simpa [Subs.getContent, hc1, alwaysMerges] using hpath
      rcases hc2 : (s.get v2).content with on2 | ⟨on2, ab2⟩ | n2 | ⟨n2, ab2⟩ | ⟨on2, sv2⟩ | ft2 | ⟨sy2, ar2, rv2, k2⟩ | ⟨rv2, rs2⟩ | _ <;>
        rw [Subs.getContent, hc2] at hflex
      all_goals simp only [isFlexContent, Bool.false_eq_true] at hflex
      have harm : unifyContext (f + 2) s p ⟨v1, s.get v1, v2, s.get v2, m⟩ =
          unifyStructure (f + 1) s p ⟨v1, s.get v1, v2, s.get v2, m⟩ ft1 (s.get v2).content := by
        simp [unifyContext, hc1]
      rw [harm] at hr
      rw [hc2] at hr
      simp only [unifyStructure, Option.some.injEq, Prod.mk.injEq] at hr
      obtain ⟨ho, hs, hp⟩ := hr
      rw [← hs]
      split
      · split <;>
          simp [Subs.set_equivalent_eq, Subs.fresh_equivalent_eq, Subs.freshUnnamedFlexVar,
            merge, Subs.union_equivalent]
      · simp [merge, Subs.union_equivalent]
    · -- Alias on the left against FlexVar: merge to the alias content.
      have hflex : isFlexContent (s.getContent v2) = true := by
        simpa [Subs.getContent, hc1, alwaysMerges] using hpath
      rcases hc2 : (s.get v2).content with on2 | ⟨on2, ab2⟩ | n2 | ⟨n2, ab2⟩ | ⟨on2, sv2⟩ | ft2 | ⟨sy2, ar2, rv2, k2⟩ | ⟨rv2, rs2⟩ | _ <;>
        rw [Subs.getContent, hc2] at hflex
      all_goals simp only [isFlexContent, Bool.false_eq_true] at hflex
      have harm : unifyContext (f + 2) s p ⟨v1, s.get v1, v2, s.get v2, m⟩ =
          some ((merge s ⟨v1, s.get v1, v2, s.get v2, m⟩ (.alias sy1 ar1 rv1 k1)).1,
                (merge s ⟨v1, s.get v1, v2, s.get v2, m⟩ (.alias sy1 ar1 rv1 k1)).2, p) := by
        simp [unifyContext, hc1, unifyAlias, hc2]
      rw [harm] at hr
      have h2 := Option.some.inj hr
      have hs : _ = s2 := congrArg (fun r => r.2.1) h2
      rw [← hs]
      exact Subs.union_equivalent s v1 v2 _
    · -- RangedNumber on the left against FlexVar: merge, then a
      -- rollback-neutral range check.
      have hflex : isFlexContent (s.getContent v2) = true := by
        simpa [Subs.getContent, hc1, alwaysMerges] using hpath
      rcases hc2 : (s.get v2).content with on2 | ⟨on2, ab2⟩ | n2 | ⟨n2, ab2⟩ | ⟨on2, sv2⟩ | ft2 | ⟨sy2, ar2, rv2, k2⟩ | ⟨rv2, rs2⟩ | _ <;>
        rw [Subs.getContent, hc2] at hflex
      all_goals simp only [isFlexContent, Bool.false_eq_true] at hflex
      have harm : unifyContext (f + 2) s p ⟨v1, s.get v1, v2, s.get v2, m⟩ =
          checkValidRange f
            (s.union v1 v2 (mergeDesc ⟨v1, s.get v1, v2, s.get v2, m⟩ (.rangedNumber rv1 rs1)))
            p v2 rs1 m := by
        simp [unifyContext, hc1, unifyRangedNumber, hc2, merge, emptyOutcome]
      rw [harm] at hr
      cases f with
      | zero => exact nomatch hr
      | succ g =>
        simp only [checkValidRange] at hr
        obtain ⟨ho, hs, hp⟩ := checkValidRangeGo_success_exit _ v2 m rs1 _ p o s2 p2 hr he
        rw [hs]
        exact Subs.union_equivalent s v1 v2 _
    · -- Error on the left: merge to Error.
      have harm : unifyContext (f + 2) s p ⟨v1, s.get v1, v2, s.get v2, m⟩ =
          some ((merge s ⟨v1, s.get v1, v2, s.get v2, m⟩ .error).1,
                (merge s ⟨v1, s.get v1, v2, s.get v2, m⟩ .error).2, p) := by
        simp [unifyContext, hc1]
      rw [harm] at hr
      have h2 := Option.some.inj hr
      have hs : _ = s2 := congrArg (fun r => r.2.1) h2
      rw [← hs]
      exact Subs.union_equivalent s v1 v2 _

/-- C2 (witness): two flex variables are a merge-ending pair; they unify
successfully into one class with a shared root descriptor. -/
theorem c2_merge_ending_success_same_class_witness :
    ((alwaysMerges (sFlexPair.getContent 0) || isFlexContent (sFlexPair.getContent 1)) = true) ∧
    ((unifyPool 9 sFlexPair [] 0 1 Mode.eqMode).map (fun r => r.1.mismatches.isEmpty) = some true) ∧
    ((unifyPool 9 sFlexPair [] 0 1 Mode.eqMode).map (fun r => r.2.1.equivalent 0 1) = some true) ∧
    ((unifyPool 9 sFlexPair [] 0 1 Mode.eqMode).map (fun r => r.2.1.get 0) =
     (unifyPool 9 sFlexPair [] 0 1 Mode.eqMode).map (fun r => r.2.1.get 1)) :=
  ⟨by decide, by decide,
   c2_merge_ending_success_same_class 6 sFlexPair [] 0 1 Mode.eqMode (by decide) (by decide)⟩

/-- C3: idempotence - the second of two runs of `unify(v1, v2, mode)`
produces an empty outcome - is broken only by non-termination of the
code.  At the failing input, the store `sCyc` whose structural aliases
0 and 1 cycle through each other's real var, the first run of
`unify(0, 2, EQ)` never returns, so the double run never produces the
empty outcome the claim requires: for every fuel bound it yields no
result. -/
theorem c3_double_unify_diverges_on_cyclic_aliases :
    ¬ ∃ (n : Nat) (r : Unified × Subs), unifyTwice n n sCyc 0 2 Mode.eqMode = some r := by
  rintro ⟨n, r, h⟩
  have hn := (cycNone n []).1
  simp [unifyTwice, unify, hn] at h

/-- Whenever the first run of `unify` terminates and either fails (it
then unions the two variables to `Error`) or leaves the two variables
equivalent, a second run of `unify` on the same pair returns `Success`
with an empty outcome: no mismatches, no obligations, and no touched
variables. -/
theorem unify_second_run_after_failure_or_merge : ∀ f g s v1 v2 m,
    (unify f s v1 v2 m).map (fun r => r.1.isFailing || r.2.equivalent v1 v2) = some true →
    (unifyTwice f (g + 1) s v1 v2 m).map (fun r => r.1) = some (.success [] []) := by
  intro f g s v1 v2 m h
  cases hp : unify f s v1 v2 m with
  | none => rw [hp] at h; exact nomatch h
  | some r =>
    obtain ⟨u, s1⟩ := r
    rw [hp] at h
    have hb : (u.isFailing || s1.equivalent v1 v2) = true := Option.some.inj h
    have he : s1.equivalent v1 v2 = true := by
      cases hf : u.isFailing with
      | true => exact (unify_failing_equivalent f s v1 v2 m u s1 hp hf).1
      | false => rw [hf] at hb; simpa using hb
    have h2 : unify (g + 1) s1 v1 v2 m = some (.success [] [], s1) := by
      simp [unify, unifyPool, he, emptyOutcome]
    simp [unifyTwice, hp, h2]

/-- After a failed rigid-rigid unification, the second run returns the
empty-outcome success. -/
theorem unify_second_run_after_failure_or_merge_example :
    (unifyTwice 9 5 sTwoRigids 0 1 Mode.eqMode).map (fun r => r.1) =
      some (.success [] []) :=
  unify_second_run_after_failure_or_merge 9 4 sTwoRigids 0 1 Mode.eqMode (by decide)

/-- On a terminating run that ends in a non-merging success - the
structural alias 0 against the rigid variable 2, which recurses into
the alias real var and leaves 0 and 2 in different classes - the second
run nevertheless returns the empty-outcome success: it retraces the
alias dispatch and short-circuits on the now-equivalent real var. -/
theorem unify_second_run_after_nonmerging_success :
    ((unify 9 sAliasRigid 0 2 Mode.eqMode).map (fun r => r.2.equivalent 0 2) = some false) ∧
    (unifyTwice 9 9 sAliasRigid 0 2 Mode.eqMode).map (fun r => r.1) =
      some (.success [] []) := by
  constructor
  · decide
  · decide

/-- C4 (counterexample): EQ-mode unification is not symmetric in success.
On the store `sRigidFlexAble`, `unify(0, 1, EQ)` with `RigidVar` on the
left and `FlexAbleVar` on the right fails, while `unify(1, 0, EQ)`
succeeds. -/
theorem c4_eq_mode_asymmetric :
    ((unify 9 sRigidFlexAble 0 1 Mode.eqMode).map (fun r => r.1.isSuccess) = some false) ∧
    ((unify 9 sRigidFlexAble 1 0 Mode.eqMode).map (fun r => r.1.isSuccess) = some true) := by
  constructor <;> decide

/-- C4 (amended): for every store pairing a plain rigid variable with a
flex-able variable, the rigid-first order mismatches (`unify_rigid` has
no able bound to discharge), while the flex-able-first order merges to
the rigid content and succeeds, dropping the ability bound. -/
theorem c4_rigid_flexAble_asymmetry : ∀ f s v1 v2 nm onm ab,
    s.getContent v1 = .rigidVar nm →
    s.getContent v2 = .flexAbleVar onm ab →
    s.equivalent v1 v2 = false →
    ((unify (f + 2) s v1 v2 Mode.eqMode).map (fun r => r.1.isSuccess) = some false) ∧
    ((unify (f + 2) s v2 v1 Mode.eqMode).map
        (fun r => (r.1, r.2.equivalent v1 v2, (r.2.get v1).content)) =
      some (.success [] [], true, .rigidVar nm)) := by
  intro f s v1 v2 nm onm ab h1 h2 hne
  rw [Subs.getContent] at h1 h2
  have hne2 : s.equivalent v2 v1 = false := by
    rw [Subs.equivalent_comm]; exact hne
  constructor
  · have hstep : unifyPool (f + 2) s [] v1 v2 Mode.eqMode =
        some (notAbleOutcome v1 ab, s, []) := by
      simp [unifyPool, hne, unifyContext, h1, h2, unifyRigid]
    simp [unify, hstep, notAbleOutcome, varToErrorTypeContextual, Unified.isSuccess]
  · have hstep : unifyPool (f + 2) s [] v2 v1 Mode.eqMode =
        some (emptyOutcome,
          s.union v2 v1 (mergeDesc ⟨v2, s.get v2, v1, s.get v1, Mode.eqMode⟩ (.rigidVar nm)), []) := by
      simp [unifyPool, hne2, unifyContext, h1, h2, unifyFlex, merge]
    simp [unify, hstep, emptyOutcome, Subs.union_get_right, mergeDesc]
    rw [Subs.equivalent_comm]
    exact Subs.union_equivalent _ _ _ _

/-- C4 (witness): the asymmetry at the concrete rigid/flex-able store. -/
theorem c4_rigid_flexAble_asymmetry_witness :
    ((unify 7 sRigidFlexAble 0 1 Mode.eqMode).map (fun r => r.1.isSuccess) = some false) ∧
    ((unify 7 sRigidFlexAble 1 0 Mode.eqMode).map
        (fun r => (r.1, r.2.equivalent 0 1, (r.2.get 0).content)) =
      some (.success [] [], true, .rigidVar 3)) :=
  c4_rigid_flexAble_asymmetry 5 sRigidFlexAble 0 1 3 none 7 (by decide) (by decide) (by decide)

/-- C5: `check_valid_range` tries the candidates in order, each attempt
under a fresh snapshot with `RIGID_AS_FLEX` added to the mode.  If some
candidate unifies after the earlier ones failed, everything is rolled
back and the result is the empty outcome with the initial store and pool
(no persistent effect); if every candidate fails, the final attempt is
committed and the outcome is exactly the single `TypeNotInRange`
mismatch; an empty range yields `TypeNotInRange` with the store
untouched. -/
theorem c5_check_valid_range : ∀ (f : Nat) (s : Subs) (p : Pool) (v : Var) (m : Mode),
    (∀ pre c post, (∀ d ∈ pre, attemptFails f s p v m d) → attemptSucceeds f s p v m c →
      checkValidRange (f + 1) s p v (pre ++ c :: post) m = some (emptyOutcome, s, p)) ∧
    (∀ init last, (∀ d ∈ init ++ [last], attemptFails f s p v m d) →
      checkValidRange (f + 1) s p v (init ++ [last]) m =
        (unifyPool f s p v last m.withRigidAsFlex).map (fun r => (typeNotInRangeOutcome, r.2))) ∧
    (checkValidRange (f + 1) s p v [] m = some (typeNotInRangeOutcome, s, p)) := by
  intro f s p v m
  refine ⟨?_, ?_, rfl⟩
  · intro pre c post hfails hsucc
    rw [checkValidRange]
    exact checkValidRangeGo_success f s p v m pre c post hfails hsucc
  · intro init last hfails
    rw [checkValidRange]
    exact checkValidRangeGo_allFail f s p v m init last hfails

/-- C5 (witness): checking the empty record against the range whose first
candidate mismatches and whose second matches returns the empty outcome
with the original store. -/
theorem c5_check_valid_range_witness :
    checkValidRange 6 sRange [] 0 [1, 2] Mode.eqMode = some (emptyOutcome, sRange, []) :=
  (c5_check_valid_range 5 sRange [] 0 Mode.eqMode).1 [1] 2 []
    (by intro d hd; simp at hd; subst hd; rw [attemptFails]; decide)
    (by rw [attemptSucceeds]; decide)

/-- C7: when a field name occurs on both sides of a record unification
and the two field variables unify cleanly, the combined field kind is
exactly the lattice of the spec: demanded with optional is an error (the
field is skipped and the row mismatches while the remaining unification
has already proceeded), demanded with anything else is demanded,
required with required or optional is required, and optional with
optional is optional. -/
theorem c7_shared_field_lattice : ∀ (f : Nat) (s : Subs) (p : Pool) (ctx : Context)
    (name : FieldName) (v : Var) (t1 t2 : KindTag) (extv : Var),
    s.getContent extv = .structure .emptyRecord →
    unifySharedFields (f + 2) s p ctx [(name, (mkField t1 v, mkField t2 v))] .none extv =
      (match latticeSpec t1 t2 with
       | none => some (mismatchOutcome, s, p)
       | some t => some (emptyOutcome,
          s.union ctx.first ctx.second
            (mergeDesc ctx (.structure (.record [(name, mkField t v)] extv))), p)) := by
  intro f s p ctx name v t1 t2 extv hext
  have hsame := unifyPool_sameVar f s p v ctx.mode
  cases t1 <;> cases t2 <;>
    simp [unifySharedFields, sharedFieldsGo, mkField, RecordField.intoInner, hsame,
      combineSharedField, latticeSpec, gatherRecFields, hext, sortByKey, merge,
      emptyOutcome, mismatchOutcome]

/-- C7 (witness): a required and an optional field over the same variable
combine to a required field in the merged record. -/
theorem c7_shared_field_lattice_witness :
    unifySharedFields 7 sC7W [] ctxW [(0, (mkField .requiredK 0, mkField .optionalK 0))] .none 1 =
      some (emptyOutcome,
        sC7W.union ctxW.first ctxW.second
          (mergeDesc ctxW (.structure (.record [(0, mkField .requiredK 0)] 1))), []) :=
  c7_shared_field_lattice 5 sC7W [] ctxW 0 0 .requiredK .optionalK 1 (by decide)

/-- C10: argument positions of `Apply` and `Func` are always unified in
`EQ` mode regardless of the ambient mode.  First, the whole
`Apply`-versus-`Apply` arm of `unify_flat_type` is independent of the
ambient mode; second, `unify_zip_slices` (used for both `Apply` and
`Func` argument lists) coincides with the mode-propagating variant
instantiated at `EQ`. -/
theorem c10_zip_slices_always_eq_mode :
    (∀ (f : Nat) (s : Subs) (p : Pool) (ctx : Context) (m1 m2 : Mode)
        (sy1 : Symbol) (la : List Var) (sy2 : Symbol) (ra : List Var),
      unifyFlatType (f + 1) s p { ctx with mode := m1 } (.apply sy1 la) (.apply sy2 ra) =
      unifyFlatType (f + 1) s p { ctx with mode := m2 } (.apply sy1 la) (.apply sy2 ra)) ∧
    (∀ (f : Nat) (s : Subs) (p : Pool) (l r : List Var),
      unifyZipSlices f s p l r = unifyZipSlicesModed f s p l r Mode.eqMode) := by
  constructor
  · intro f s p ctx m1 m2 sy1 la sy2 ra
    simp [unifyFlatType, merge, mergeDesc]
  · intro f s p l r
    cases f with
    | zero => rfl
    | succ f2 =>
      rw [unifyZipSlices, unifyZipSlicesModed]
      exact zipGoEQ_eq_moded _ _ _ _ _

end RocUnify

namespace RocMono

/-! ## Tail-call pass lemmas -/

mutual

/-- A statement without a recognizable tail-call site is left unchanged
by the spec-level rewrite. -/
theorem specRewrite_id : ∀ (gid needle : Symbol) (s : Stmt),
    specHasSite needle s = false → specRewrite gid needle s = s
  | gid, needle, .letS x e l cont => by
    intro h
    rw [specHasSite, Bool.or_eq_false_iff] at h
    simp [specRewrite, h.1, specRewrite_id gid needle cont h.2]
  | gid, needle, .invoke x c l pass fail => by
    intro h
    rw [specHasSite, Bool.or_eq_false_iff, Bool.or_eq_false_iff] at h
    simp [specRewrite, h.1.1, specRewrite_id gid needle pass h.1.2,
      specRewrite_id gid needle fail h.2]
  | gid, needle, .join id ps remainder continuation => by
    intro h
    rw [specHasSite, Bool.or_eq_false_iff] at h
    simp [specRewrite, specRewrite_id gid needle remainder h.1,
      specRewrite_id gid needle continuation h.2]
  | gid, needle, .switch cs cl branches di db rl => by
    intro h
    rw [specHasSite, Bool.or_eq_false_iff] at h
    simp [specRewrite, specRewriteBranches_id gid needle branches h.1,
      specRewrite_id gid needle db h.2]
  | gid, needle, .refcounting m cont => by
    intro h
    rw [specHasSite] at h
    simp [specRewrite, specRewrite_id gid needle cont h]
  | _, _, .jump _ _ => by intro _; rfl
  | _, _, .ret _ => by intro _; rfl
  | _, _, .rethrow => by intro _; rfl
  | _, _, .runtimeError _ => by intro _; rfl

/-- Branch lists without a site are left unchanged by the rewrite. -/
theorem specRewriteBranches_id : ∀ (gid needle : Symbol) (bs : Branches),
    specHasSiteBranches needle bs = false → specRewriteBranches gid needle bs = bs
  | _, _, .nil => by intro _; rfl
  | gid, needle, .cons label info branch rest => by
    intro h
    rw [specHasSiteBranches, Bool.or_eq_false_iff] at h
    simp [specRewriteBranches, specRewrite_id gid needle branch h.1,
      specRewriteBranches_id gid needle rest h.2]

end

mutual

/-- The `insert_jumps` traversal returns `some` exactly when the
statement contains a recognizable tail-call site, and in that case the
result is the spec-level rewrite of every site into a jump. -/
theorem insertJumps_spec : ∀ (gid needle : Symbol) (s : Stmt),
    insertJumps gid needle s =
      (if specHasSite needle s then some (specRewrite gid needle s) else none)
  | gid, needle, .letS x e l cont => by
    by_cases hsite : siteLet needle x e cont
    · simp [insertJumps, specHasSite, specRewrite, hsite]
    · have ih := insertJumps_spec gid needle cont
      cases hs : specHasSite needle cont with
      | true => simp [insertJumps, hsite, ih, hs, specHasSite, specRewrite]
      | false => simp [insertJumps, hsite, ih, hs, specHasSite, specRewrite]
  | gid, needle, .invoke x c l pass fail => by
    by_cases hsite : siteInvoke needle x c pass
    · simp [insertJumps, specHasSite, specRewrite, hsite]
    · have ihp := insertJumps_spec gid needle pass
      have ihf := insertJumps_spec gid needle fail
      cases hp : specHasSite needle pass with
      | true =>
        cases hf : specHasSite needle fail with
        | true => simp [insertJumps, hsite, ihp, ihf, hp, hf, specHasSite, specRewrite]
        | false =>
          simp [insertJumps, hsite, ihp, ihf, hp, hf, specHasSite, specRewrite,
            specRewrite_id gid needle fail hf]
      | false =>
        cases hf : specHasSite needle fail with
        | true =>
          simp [insertJumps, hsite, ihp, ihf, hp, hf, specHasSite, specRewrite,
            specRewrite_id gid needle pass hp]
        | false => simp [insertJumps, hsite, ihp, ihf, hp, hf, specHasSite, specRewrite]
  | gid, needle, .join id ps remainder continuation => by
    have ihr := insertJumps_spec gid needle remainder
    have ihc := insertJumps_spec gid needle continuation
    cases hr : specHasSite needle remainder with
    | true =>
      cases hc : specHasSite needle continuation with
      | true => simp [insertJumps, ihr, ihc, hr, hc, specHasSite, specRewrite]
      | false =>
        simp [insertJumps, ihr, ihc, hr, hc, specHasSite, specRewrite,
          specRewrite_id gid needle continuation hc]
    | false =>
      cases hc : specHasSite needle continuation with
      | true =>
        simp [insertJumps, ihr, ihc, hr, hc, specHasSite, specRewrite,
          specRewrite_id gid needle remainder hr]
      | false => simp [insertJumps, ihr, ihc, hr, hc, specHasSite, specRewrite]
  | gid, needle, .switch cs cl branches di db rl => by
    have ihb := insertJumpsBranches_spec gid needle branches
    have ihd := insertJumps_spec gid needle db
    cases hb : specHasSiteBranches needle branches with
    | true =>
      cases hd : specHasSite needle db with
      | true => simp [insertJumps, ihb, ihd, hb, hd, specHasSite, specRewrite]
      | false =>
        simp [insertJumps, ihb, ihd, hb, hd, specHasSite, specRewrite,
          specRewrite_id gid needle db hd]
    | false =>
      cases hd : specHasSite needle db with
      | true =>
        simp [insertJumps, ihb, ihd, hb, hd, specHasSite, specRewrite,
          specRewriteBranches_id gid needle branches hb]
      | false => simp [insertJumps, ihb, ihd, hb, hd, specHasSite, specRewrite]
  | gid, needle, .refcounting m cont => by
    have ih := insertJumps_spec gid needle cont
    cases hs : specHasSite needle cont with
    | true => simp [insertJumps, ih, hs, specHasSite, specRewrite]
    | false => simp [insertJumps, ih, hs, specHasSite, specRewrite]
  | gid, needle, .jump _ _ => by simp [insertJumps, specHasSite]
  | gid, needle, .ret _ => by simp [insertJumps, specHasSite]
  | gid, needle, .rethrow => by simp [insertJumps, specHasSite]
  | gid, needle, .runtimeError _ => by simp [insertJumps, specHasSite]

/-- Branch-list version of `insertJumps_spec`. -/
theorem insertJumpsBranches_spec : ∀ (gid needle : Symbol) (bs : Branches),
    insertJumpsBranches gid needle bs =
      (specRewriteBranches gid needle bs, specHasSiteBranches needle bs)
  | gid, needle, .nil => by
    simp [insertJumpsBranches, specRewriteBranches, specHasSiteBranches]
  | gid, needle, .cons label info branch rest => by
    have ihb := insertJumps_spec gid needle branch
    have ihr := insertJumpsBranches_spec gid needle rest
    cases hb : specHasSite needle branch with
    | true => simp [insertJumpsBranches, ihb, ihr, hb, specRewriteBranches, specHasSiteBranches]
    | false =>
      simp [insertJumpsBranches, ihb, ihr, hb, specRewriteBranches, specHasSiteBranches,
        specRewrite_id gid needle branch hb]

end

/-! ## Claim theorems for the tail-call pass -/

/-- C6 (counterexample): the `Invoke` tail-call site does not require
`fail = Rethrow`.  The statement `invokeBadFail`, whose fail branch is a
`RuntimeError`, contains no recognizable site by the claim, yet the pass
rewrites it into a join-wrapped jump instead of returning it unchanged
(in a debug build the `debug_assert_eq!` would panic on it instead). -/
theorem c6_invoke_fail_not_checked :
    makeTailRecursive 9 0 invokeBadFail [] =
      Stmt.join 9 [] (.jump 9 []) (.jump 9 []) ∧
    makeTailRecursive 9 0 invokeBadFail [] ≠ invokeBadFail := by
  refine ⟨rfl, ?_⟩
  intro h
  rw [show makeTailRecursive 9 0 invokeBadFail []
      = Stmt.join 9 [] (.jump 9 []) (.jump 9 []) from rfl] at h
  exact Stmt.noConfusion h

/-- C6 (amended): `make_tail_recursive` rewrites exactly the recognizable
tail-call sites - `Let(x, Call(needle, args), _, Ret(x))` and
`Invoke(x, Call(needle, args), pass: Ret(x), ..)` with the fail branch
not examined - into `Jump(id, args)`; when at least one site exists the
result is `Join(id, formals, Jump(id, formal symbols), rewritten body)`,
and otherwise the input statement is returned unchanged. -/
theorem c6_make_tail_recursive_characterization : ∀ (id : JoinPointId) (needle : Symbol)
    (stmt : Stmt) (args : List (Layout × Symbol)),
    makeTailRecursive id needle stmt args =
      (if specHasSite needle stmt then
        Stmt.join id (args.map fun t => Param.mk t.2 t.1 true)
          (Stmt.jump id (args.map fun t => t.2)) (specRewrite id needle stmt)
      else stmt) := by
  intro id needle stmt args
  rw [makeTailRecursive, insertJumps_spec]
  cases hs : specHasSite needle stmt with
  | true => simp
  | false => simp

end RocMono

namespace RocAlias

/-! ## Claim theorems for the alias-analysis lowering -/

/-- C8: in debug mode, `func_name_bytes_help` writes the characters of
the symbol's debug name at indices `25 + i` of a 16-byte array, which is
out of bounds for every character: the embedded bounds-checked write
returns `none` (the Rust code panics).  Outside debug mode the result is
exactly the 8 little-endian symbol bytes followed by the 8 bytes of the
64-bit layout hash, 16 bytes in total, a pure function of its inputs. -/
theorem c8_debug_name_out_of_bounds : ∀ (symbol layoutHash c : Nat) (cs : List Nat),
    funcNameBytesHelp true symbol layoutHash (c :: cs) = none ∧
    funcNameBytesHelp false symbol layoutHash (c :: cs) =
      some (u64ToLeBytes symbol ++ u64ToLeBytes layoutHash) ∧
    (u64ToLeBytes symbol ++ u64ToLeBytes layoutHash).length = 16 := by
  intro symbol layoutHash c cs
  exact ⟨rfl, rfl, rfl⟩

/-- C9: lowering `ListReplaceUnsafe` emits, in order: the bag and the
heap cell of the list argument, a touch of the cell, an update of the
cell under the given update-mode variable, an insertion of the new
element into the bag, a read of the old element from the bag, a fresh
heap cell paired with the bag as the new list, and finally the returned
two-element tuple of the new list and the old value. -/
theorem c9_list_replace_unsafe : ∀ (n list x umv : Nat),
    listReplaceUnsafeSpec ⟨n, []⟩ list x umv =
      (n + 8,
       { nextId := n + 9,
         ops := [(n, .getTupleField list LIST_BAG_INDEX),
                 (n + 1, .getTupleField list LIST_CELL_INDEX),
                 (n + 2, .touch (n + 1)),
                 (n + 3, .update umv (n + 1)),
                 (n + 4, .bagInsert n x),
                 (n + 5, .bagGet n),
                 (n + 6, .newHeapCell),
                 (n + 7, .makeTuple [n + 6, n]),
                 (n + 8, .makeTuple [n + 7, n + 5])] }) := by
  intro n list x umv
  rfl

end RocAlias
